import Mathlib

/-!
# Verification of `src/bdsx/source-map-support.ts`

A shallow embedding of the stack-trace remapping module. Strings are
`List Char` (`Str`); the regexes of the source are embedded as bespoke
deterministic matchers derived from JavaScript's leftmost/greedy
backtracking semantics (each derivation is documented at the matcher).
JavaScript numbers that the module parses out of `\d+` captures are
modelled exactly as `Nat` (stack line/column numbers are far below 2^53,
where doubles are exact); the one place the module subtracts (columns are
stored zero-based) is modelled on `Int`, matching the `+str - 1` of the
source. Effectful code (filesystem reads, the two module-level caches)
is explicit state passing over `St`. External collaborators that the
module only calls (the `source-map` decoder, `fs`, `Buffer.from(...,
"base64")`, `process.cwd()`) are fields of an `Env` record, as the spec
names them out of scope; `path.dirname`/`path.resolve` are embedded with
Node's POSIX algorithms.
-/

/-- Strings as explicit character lists. -/
abbrev Str := List Char

/-- Coerce a Lean string literal to the character-list representation. -/
def str (s : String) : Str := s.data

/-- JavaScript `\s` (WhiteSpace plus LineTerminator), also the set used by
`String.prototype.trim`. -/
def isJsSpace (c : Char) : Bool :=
  [0x9, 0xa, 0xb, 0xc, 0xd, 0x20, 0xa0, 0x1680, 0x2000, 0x2001, 0x2002,
   0x2003, 0x2004, 0x2005, 0x2006, 0x2007, 0x2008, 0x2009, 0x200a,
   0x2028, 0x2029, 0x202f, 0x205f, 0x3000, 0xfeff].contains c.toNat

/-- JavaScript line terminators: the characters `.` does not match. -/
def isLineTerm (c : Char) : Bool :=
  [0xa, 0xd, 0x2028, 0x2029].contains c.toNat

/-- JavaScript `\d`. -/
def isDigit (c : Char) : Bool :=
  decide (48 ≤ c.toNat ∧ c.toNat ≤ 57)

/-- JavaScript `\w`. -/
def isWordChar (c : Char) : Bool :=
  decide ((65 ≤ c.toNat ∧ c.toNat ≤ 90) ∨ (97 ≤ c.toNat ∧ c.toNat ≤ 122) ∨
    (48 ≤ c.toNat ∧ c.toNat ≤ 57)) || c = '_'

/-- `+str` on a `\d+` capture. -/
def digitsToNat (ds : Str) : Nat :=
  ds.foldl (fun acc c => acc * 10 + (c.toNat - 48)) 0

/-- Decimal printing of a natural, with enough fuel to cover every input. -/
def natToStrGo : Nat → Nat → Str → Str
  | 0, _, acc => acc
  | fuel + 1, n, acc =>
    let d := Char.ofNat (48 + n % 10)
    if n < 10 then d :: acc else natToStrGo fuel (n / 10) (d :: acc)

/-- Template-literal printing of a nonnegative JavaScript number. -/
def natToStr (n : Nat) : Str := natToStrGo (n + 1) n []

/-- Template-literal printing of a JavaScript integer. -/
def intToStr (i : Int) : Str :=
  if i < 0 then '-' :: natToStr (-i).toNat else natToStr i.toNat

/-- `String.prototype.trim`. -/
def jsTrim (s : Str) : Str :=
  ((s.dropWhile isJsSpace).reverse.dropWhile isJsSpace).reverse

/-- First-match lookup in an association list, modelling a plain-object
property read (`cache[key]`; `none` is JavaScript `undefined`). -/
def lookupA {α : Type} : List (Str × α) → Str → Option α
  | [], _ => none
  | (k, v) :: t, key => if k = key then some v else lookupA t key

/-- Property write `cache[key] = v`: overwrite in place or append. -/
def setA {α : Type} : List (Str × α) → Str → α → List (Str × α)
  | [], key, v => [(key, v)]
  | (k, w) :: t, key, v =>
    if k = key then (k, v) :: t else (k, w) :: setA t key v

theorem lookupA_setA {α : Type} (l : List (Str × α)) (k k' : Str) (v : α) :
    lookupA (setA l k v) k' = if k = k' then some v else lookupA l k' := by
  induction l with
  | nil =>
    by_cases h : k = k' <;> simp [setA, lookupA, h]
  | cons hd t ih =>
    obtain ⟨k0, v0⟩ := hd
    by_cases h0 : k0 = k
    · subst h0
      by_cases h : k0 = k' <;> simp [setA, lookupA, h]
    · simp only [setA, if_neg h0]
      by_cases h : k0 = k'
      · subst h
        have : ¬ k = k0 := fun hh => h0 hh.symm
        simp [lookupA, this]
      · simp [lookupA, h, ih]

/-- `stack.split('\n')`. -/
def splitNl : Str → List Str
  | [] => [[]]
  | c :: rest =>
    if c = '\n' then [] :: splitNl rest
    else
      match splitNl rest with
      | h :: t => (c :: h) :: t
      | [] => [[c]]

/-- `frames.join('\n')`. -/
def joinNl : List Str → Str
  | [] => []
  | [x] => x
  | x :: y :: t => x ++ '\n' :: joinNl (y :: t)

theorem splitNl_ne_nil (s : Str) : splitNl s ≠ [] := by
  cases s with
  | nil => simp [splitNl]
  | cons c rest =>
    simp only [splitNl]
    by_cases h : c = '\n'
    · simp [h]
    · simp only [if_neg h]
      cases splitNl rest <;> simp

theorem joinNl_splitNl (s : Str) : joinNl (splitNl s) = s := by
  induction s with
  | nil => simp [splitNl, joinNl]
  | cons c rest ih =>
    simp only [splitNl]
    by_cases h : c = '\n'
    · subst h
      simp only [if_pos rfl]
      cases hs : splitNl rest with
      | nil => exact absurd hs (splitNl_ne_nil rest)
      | cons a t =>
        rw [hs] at ih
        simp [joinNl, ih]
    · simp only [if_neg h]
      cases hs : splitNl rest with
      | nil => exact absurd hs (splitNl_ne_nil rest)
      | cons a t =>
        rw [hs] at ih
        cases t with
        | nil => simpa [joinNl] using congrArg (c :: ·) ih
        | cons b t' => simpa [joinNl] using congrArg (c :: ·) ih

/-- Splitting a string whose first line is terminator-free peels it off. -/
theorem splitNl_append (a b : Str) (ha : '\n' ∉ a) :
    splitNl (a ++ '\n' :: b) = a :: splitNl b := by
  induction a with
  | nil => simp [splitNl]
  | cons c t ih =>
    have hc : c ≠ '\n' := fun h => ha (h ▸ List.mem_cons_self c t)
    have ht : '\n' ∉ t := fun h => ha (List.mem_cons_of_mem c h)
    simp only [List.cons_append, splitNl, if_neg hc]
    rw [List.append_eq, ih ht]

/-- A terminator-free string splits into itself. -/
theorem splitNl_no_nl (a : Str) (ha : '\n' ∉ a) : splitNl a = [a] := by
  induction a with
  | nil => simp [splitNl]
  | cons c t ih =>
    have hc : c ≠ '\n' := fun h => ha (h ▸ List.mem_cons_self c t)
    have ht : '\n' ∉ t := fun h => ha (List.mem_cons_of_mem c h)
    simp [splitNl, if_neg hc, ih ht]

/-- `contents.split(/(?:\r\n|\r|\n)/)`: the alternation prefers `\r\n`. -/
def splitLines : Str → List Str
  | [] => [[]]
  | '\r' :: '\n' :: rest => [] :: splitLines rest
  | '\r' :: rest => [] :: splitLines rest
  | '\n' :: rest => [] :: splitLines rest
  | c :: rest =>
    match splitLines rest with
    | h :: t => (c :: h) :: t
    | [] => [[c]]

/-- Setting an index to the value it already holds is the identity. -/
theorem List.set_getD_self {α : Type} (l : List α) (i : Nat) (d : α) :
    l.set i (l.getD i d) = l := by
  induction l generalizing i with
  | nil => simp
  | cons a t ih =>
    cases i with
    | zero => simp [List.getD]
    | succ j =>
      simp only [List.set, List.cons.injEq, true_and]
      simpa [List.getD] using ih j

/-- `takeWhile` walks through a prefix every element of which satisfies
the predicate. -/
theorem takeWhile_append_all {p : Char → Bool} (xs ys : Str)
    (h : ∀ x ∈ xs, p x = true) :
    (xs ++ ys).takeWhile p = xs ++ ys.takeWhile p := by
  induction xs with
  | nil => simp
  | cons a t ih =>
    have ha : p a = true := h a (List.mem_cons_self a t)
    simp only [List.cons_append, List.takeWhile_cons, ha, if_true]
    simpa using ih (fun x hx => h x (List.mem_cons_of_mem a hx))

/-! ## Data model

`Position`, `UrlAndMap`, the decoded-map entry and the traversal cursor,
from the interfaces at the top of the source file. The external
`SourceMapConsumer` capability is a record of the three members the
module uses. -/

/-- A generated or original location. `line` is the 1-based `\d+` capture;
`column` is stored zero-based and is produced by `+capture - 1`, which in
JavaScript can be `-1`, hence `Int`. -/
structure Position where
  source : Str
  line : Nat
  column : Int
deriving DecidableEq, Repr

/-- `originalPositionFor` result: `source` is `null` when no mapping
matched, in which case the numeric fields are never read. -/
structure OrigPos where
  source : Option Str
  line : Nat
  column : Int

/-- The slice of the external `source-map` decoder the module calls. -/
structure Consumer where
  originalPositionFor : Position → OrigPos
  sourceContentFor : Str → Option Str
  sources : List Str

/-- Raw retrieval result (`UrlAndMap` in the source): `url: string | null`
plus the undecoded map text. -/
structure UrlAndMap where
  url : Option Str
  map : Str
deriving DecidableEq

/-- `SourceMapConsumerMap`: the per-source cache entry; `map = none` is
the negative entry. -/
structure SMEntry where
  url : Option Str
  map : Option Consumer

/-- `StackState`: the cursor threaded through one remap pass. -/
structure StackState where
  nextPosition : Option Position
  curPosition : Option Position

/-- `FrameInfo`: one parsed-and-remapped line. -/
structure FrameInfo where
  stackLine : Str
  internal : Bool
deriving DecidableEq

/-- The external collaborators: filesystem, map decoder, base64 decoding
and the working directory `path.resolve` falls back to, plus any map
retrieval handlers pushed after the built-in one. -/
structure Env where
  fsExists : Str → Bool
  /-- `fs.readFileSync`; `none` models a thrown read error. -/
  fsRead : Str → Option Str
  /-- `new SourceMapConsumer(mapText)`, the delegated decoder. -/
  consumerOf : Str → Consumer
  /-- `Buffer.from(raw, "base64").toString()`. -/
  base64Decode : Str → Str
  /-- Handlers pushed onto `retrieveMapHandlers` after the built-in one. -/
  extraMapHandlers : List (Str → Option UrlAndMap)
  cwd : Str

/-- The module's mutable state: the two caches, plus two instrumentation
counters (filesystem touches by the built-in file handler, and map
retrieval handler invocations) used to state the caching claims. -/
structure St where
  fileContentsCache : List (Str × Str)
  sourceMapCache : List (Str × SMEntry)
  fsAccesses : Nat
  handlerCalls : Nat

/-- The empty startup state. -/
def st0 : St := ⟨[], [], 0, 0⟩

/-- The initial `StackState` literal of the source. -/
def ss0 : StackState := ⟨none, none⟩

/-! ## Content Store -/

/-- The `path.replace(/file:\/\/\/(\w:)?/, ...)` step of the built-in file
handler: the first occurrence of `file:///`, together with a drive letter
when one follows, is replaced by the empty string (drive present) or `/`. -/
def replaceFileProto : Str → Str
  | [] => []
  | c :: rest =>
    if (str "file:///").isPrefixOf (c :: rest) then
      let after := (c :: rest).drop 8
      match after with
      | a :: ':' :: tail => if isWordChar a then tail else '/' :: after
      | _ => '/' :: after
    else c :: replaceFileProto rest

/-- The normalisation the built-in file handler applies before consulting
its cache: `trim`, then `file:` protocol stripping. -/
def normalizePath (p : Str) : Str :=
  let p := jsTrim p
  if (str "file:").isPrefixOf p then replaceFileProto p else p

/-- The handler installed on `retrieveFileHandlers` (source lines 63-89):
cached content wins; otherwise a guarded synchronous read whose failure is
swallowed, and the result (possibly the empty string) is cached. -/
def retrieveFileHandlerDefault (env : Env) (p : Str) (st : St) : Str × St :=
  let p := normalizePath p
  match lookupA st.fileContentsCache p with
  | some cached => (cached, st)
  | none =>
    let contents : Str :=
      if env.fsExists p then (env.fsRead p).getD [] else []
    (contents,
      { st with
        fileContentsCache := setA st.fileContentsCache p contents
        fsAccesses := st.fsAccesses + 1 })

/-- `retrieveFile = handlerExec(retrieveFileHandlers)`: the loop returns a
handler's result only when it is truthy, so the empty string becomes
`null` (`none`). Only the built-in handler is ever on this list. -/
def retrieveFile (env : Env) (p : Str) (st : St) : Option Str × St :=
  let (r, st) := retrieveFileHandlerDefault env p st
  if r = [] then (none, st) else (some r, st)

/-! ## Map Retriever: the sourceMappingURL scan

The regex
`(?:\/\/[@#][\s]*sourceMappingURL=([^\s'"]+)[\s]*$)|(?:\/\*[@#][\s]*sourceMappingURL=([^\s*'"]+)[\s]*(?:\*\/)[\s]*$)`
with flags `mg`. Inside each alternative every quantifier is forced: the
`[\s]*` runs must be maximal because the token after them starts with a
non-whitespace character, and the URL classes are maximal because a
shorter capture would leave a class character where `[\s]*$`, or `*\/`,
needs whitespace, `*` or a line boundary. The final `[\s]*$` (multiline)
succeeds iff the whitespace run after the capture reaches end of input or
contains a line terminator; the match then ends at the end of input or
just before the last such terminator in the run. -/

/-- The trailing `[\s]*$` of either alternative: from `s`, consume
whitespace greedily up to end of input or, failing that, up to the last
line terminator in the whitespace run; `none` when `$` cannot match. -/
def matchTrailEol (s : Str) : Option Str :=
  let run := s.takeWhile isJsSpace
  let rest := s.drop run.length
  if rest = [] then some []
  else
    let revRun := run.reverse
    let after := revRun.takeWhile (fun c => !isLineTerm c)
    if after.length = run.length then none
    else some ((revRun.take (after.length + 1)).reverse ++ rest)

/-- One attempt of the line-comment alternative at the head of `s`:
returns the captured URL and the remainder of the subject after the
match. -/
def tryLineAlt (s : Str) : Option (Str × Str) :=
  if (str "//").isPrefixOf s then
    match s.drop 2 with
    | m :: t =>
      if m = '@' ∨ m = '#' then
        let t := t.dropWhile isJsSpace
        if (str "sourceMappingURL=").isPrefixOf t then
          let t := t.drop 17
          let url := t.takeWhile (fun c => !isJsSpace c && c ≠ '\'' && c ≠ '"')
          if url = [] then none
          else
            match matchTrailEol (t.drop url.length) with
            | some rest => some (url, rest)
            | none => none
        else none
      else none
    | [] => none
  else none

/-- One attempt of the block-comment alternative at the head of `s`:
returns the remainder after the match (the capture lands in group 2,
which `retrieveSourceMapURL` never reads). -/
def tryBlockAlt (s : Str) : Option (Str × Str) :=
  if (str "/*").isPrefixOf s then
    match s.drop 2 with
    | m :: t =>
      if m = '@' ∨ m = '#' then
        let t := t.dropWhile isJsSpace
        if (str "sourceMappingURL=").isPrefixOf t then
          let t := t.drop 17
          let url := t.takeWhile
            (fun c => !isJsSpace c && c ≠ '*' && c ≠ '\'' && c ≠ '"')
          if url = [] then none
          else
            let t2 := (t.drop url.length).dropWhile isJsSpace
            if (str "*/").isPrefixOf t2 then
              match matchTrailEol (t2.drop 2) with
              | some rest => some (url, rest)
              | none => none
            else none
        else none
      else none
    | [] => none
  else none

/-- The `while ((match = re.exec(fileData)) !== null)` loop: collect every
match left to right; each element is match group 1 (`some url` for the
line-comment alternative, `none` — JavaScript `undefined` — for the
block-comment alternative). Fuel starts at the subject length; every
match consumes at least one character, so it never runs out. -/
def scanMappingURLs : Nat → Str → List (Option Str)
  | 0, _ => []
  | _ + 1, [] => []
  | fuel + 1, c :: rest =>
    match tryLineAlt (c :: rest) with
    | some (url, remaining) => some url :: scanMappingURLs fuel remaining
    | none =>
      match tryBlockAlt (c :: rest) with
      | some (_, remaining) => none :: scanMappingURLs fuel remaining
      | none => scanMappingURLs fuel rest

/-- `retrieveSourceMapURL` (source lines 107-118). The outer `Option` is
the explicit `return null` (no match at all); the inner `Option` is
`lastMatch[1]`, which is JavaScript `undefined` (`none`) when the last
match was the block-comment alternative. `re.exec` coerces a `null`
subject to the string `"null"`. -/
def retrieveSourceMapURL (env : Env) (source : Str) (st : St) :
    Option (Option Str) × St :=
  let (fileData, st) := retrieveFile env source st
  let subject := fileData.getD (str "null")
  (((scanMappingURLs subject.length subject).getLast?), st)

/-! ## `supportRelativeURL` and the POSIX `path` algorithms -/

/-- `path.posix.dirname`, Node's algorithm: scan from the end over indices
`i ≥ 1`, skip trailing slashes, and cut at the next slash. -/
def dirname (p : Str) : Str :=
  if p = [] then str "."
  else
    let hasRoot := p.headD ' ' = '/'
    let body := p.reverse.take (p.length - 1)
    let t2 := (body.dropWhile (fun c => c = '/')).dropWhile (fun c => c ≠ '/')
    if t2 = [] then (if hasRoot then str "/" else str ".")
    else if hasRoot ∧ t2.length = 1 then str "//"
    else p.take t2.length

/-- Split on `/` for path normalisation. -/
def splitSlash : Str → List Str
  | [] => [[]]
  | c :: rest =>
    if c = '/' then [] :: splitSlash rest
    else
      match splitSlash rest with
      | h :: t => (c :: h) :: t
      | [] => [[c]]

/-- One step of Node's `normalizeStringPosix` over an already-split path:
a reversed stack of kept segments. -/
def normStep (allowAbove : Bool) (acc : List Str) (part : Str) : List Str :=
  if part = [] ∨ part = str "." then acc
  else if part = str ".." then
    match acc with
    | [] => if allowAbove then [str ".."] else []
    | top :: rest => if top = str ".." then part :: acc else rest
  else part :: acc

/-- The `resolvedPath = path + '/' + resolvedPath` loop of
`path.posix.resolve`, walked right to left until an absolute segment. -/
def resolveJoinGo (acc : Str) : List Str → Str × Bool
  | [] => (acc, false)
  | p :: rest =>
    if p = [] then resolveJoinGo acc rest
    else if p.headD ' ' = '/' then (p ++ '/' :: acc, true)
    else resolveJoinGo (p ++ '/' :: acc) rest

/-- `path.posix.resolve(a, b)` in a process whose working directory is
`cwd`. -/
def resolveTwo (cwd a b : Str) : Str :=
  let (joined, abs) := resolveJoinGo [] [b, a, cwd]
  let norm := ((splitSlash joined).foldl (normStep !abs) []).reverse
  let out := List.intercalate (str "/") norm
  if abs then '/' :: out
  else if out = [] then str "." else out

/-- The protocol probe `/^\w+:\/\/[^\/]*/` applied to a directory. -/
def matchProtocol (dir : Str) : Option Str :=
  let w := dir.takeWhile isWordChar
  if w = [] then none
  else if (str "://").isPrefixOf (dir.drop w.length) then
    let hostpart := (dir.drop (w.length + 3)).takeWhile (fun c => c ≠ '/')
    some (w ++ str "://" ++ hostpart)
  else none

/-- `/^\/\w:/` on the path part after the protocol. -/
def slashDrive : Str → Bool
  | '/' :: w :: ':' :: _ => isWordChar w
  | _ => false

/-- `supportRelativeURL` (source lines 93-105). `file` is `Option` because
one call site passes a possibly-`null` map URL through a TypeScript `!`
assertion; `!file` is falsy for both `null` and the empty string. -/
def supportRelativeURL (env : Env) (file : Option Str) (url : Str) : Str :=
  match file with
  | none => url
  | some f =>
    if f = [] then url
    else
      let dir := dirname f
      let protocol := (matchProtocol dir).getD []
      let startPath := dir.drop protocol.length
      if protocol ≠ [] ∧ slashDrive startPath then
        (protocol ++ ['/']) ++
          (resolveTwo env.cwd (dir.drop (protocol.length + 1)) url).map
            (fun c => if c = '\\' then '/' else c)
      else protocol ++ resolveTwo env.cwd startPath url

/-! ## Map Retriever: the built-in handler and the handler chain -/

/-- `/^data:application\/json[^,]+base64,/`: after the fixed prefix there
must be a nonempty comma-free run followed by the literal `base64,`. -/
def findB64 : Str → Bool
  | [] => false
  | c :: rest =>
    if c = ',' then false
    else (str "base64,").isPrefixOf rest || findB64 rest

/-- `reSourceMap.test(url)`. -/
def reSourceMapTest (url : Str) : Bool :=
  if (str "data:application/json").isPrefixOf url then findB64 (url.drop 21)
  else false

/-- The handler installed on `retrieveMapHandlers` (source lines 126-151):
find the `sourceMappingURL`, then either decode an inline base64 data URL
(the entry's nominal URL becomes the generated source itself) or fetch the
URL resolved against the generated file's directory. -/
def retrieveMapHandlerDefault (env : Env) (source : Str) (st : St) :
    Option UrlAndMap × St :=
  let (u, st) := retrieveSourceMapURL env source st
  match u with
  | none => (none, st)
  | some none => (none, st)
  | some (some url) =>
    if url = [] then (none, st)
    else if reSourceMapTest url then
      let raw :=
        match url.findIdx? (fun c => c = ',') with
        | some i => url.drop (i + 1)
        | none => url
      let mapData := env.base64Decode raw
      if mapData = [] then (none, st)
      else (some ⟨some source, mapData⟩, st)
    else
      let url2 := supportRelativeURL env (some source) url
      let (dat, st) := retrieveFile env url2 st
      match dat with
      | none => (none, st)
      | some d => if d = [] then (none, st) else (some ⟨some url2, d⟩, st)

/-- The user-pushed tail of the handler chain; every handler invocation
bumps the instrumentation counter. -/
def runExtraHandlers (handlers : List (Str → Option UrlAndMap))
    (source : Str) (st : St) : Option UrlAndMap × St :=
  match handlers with
  | [] => (none, st)
  | h :: t =>
    let st := { st with handlerCalls := st.handlerCalls + 1 }
    match h source with
    | some u => (some u, st)
    | none => runExtraHandlers t source st

/-- `retrieveSourceMap = handlerExec(retrieveMapHandlers)`: the built-in
handler first, then any pushed handlers, first truthy result wins. -/
def retrieveSourceMapChain (env : Env) (source : Str) (st : St) :
    Option UrlAndMap × St :=
  let st1 := { st with handlerCalls := st.handlerCalls + 1 }
  let (r, st2) := retrieveMapHandlerDefault env source st1
  match r with
  | some u => (some u, st2)
  | none => runExtraHandlers env.extraMapHandlers source st2

/-! ## Position Resolver -/

/-- The inline-content preload: every source the decoded map carries
content for is registered in the content cache under its resolved URL. -/
def preloadSources (env : Env) (smUrl : Option Str) (c : Consumer)
    (st : St) : St :=
  c.sources.foldl
    (fun st src =>
      match c.sourceContentFor src with
      | some contents =>
        if contents = [] then st
        else
          let url := supportRelativeURL env smUrl src
          { st with fileContentsCache := setA st.fileContentsCache url contents }
      | none => st)
    st

/-- The query step of `mapSourcePosition`: `some` exactly when a decoded
map is present and `originalPositionFor` found a source, in which case
the returned source is resolved against the map's own URL. -/
def useMapEntry (env : Env) (sm : SMEntry) (pos : Position) :
    Option Position :=
  match sm.map with
  | some c =>
    let op := c.originalPositionFor pos
    match op.source with
    | some osrc => some ⟨supportRelativeURL env sm.url osrc, op.line, op.column⟩
    | none => none
  | none => none

/-- `mapSourcePosition` (source lines 159-208). -/
def mapSourcePosition (env : Env) (pos : Position) (st : St) :
    Position × St :=
  match lookupA st.sourceMapCache pos.source with
  | some sm =>
    match useMapEntry env sm pos with
    | some p => (p, st)
    | none => (pos, st)
  | none =>
    let (uam, st) := retrieveSourceMapChain env pos.source st
    match uam with
    | some u =>
      let c := env.consumerOf u.map
      let sm : SMEntry := ⟨u.url, some c⟩
      let st := { st with sourceMapCache := setA st.sourceMapCache pos.source sm }
      let st := preloadSources env sm.url c st
      match useMapEntry env sm pos with
      | some p => (p, st)
      | none => (pos, st)
    | none =>
      let sm : SMEntry := ⟨none, none⟩
      let st := { st with sourceMapCache := setA st.sourceMapCache pos.source sm }
      (pos, st)

/-- The consumer `mapSourcePosition` will consult for a source in a given
state: the cached one, else the one a fresh retrieval would decode. -/
def effectiveMap (env : Env) (src : Str) (st : St) : Option Consumer :=
  match lookupA st.sourceMapCache src with
  | some sm => sm.map
  | none =>
    match (retrieveSourceMapChain env src st).1 with
    | some u => some (env.consumerOf u.map)
    | none => none

/-! ## Frame Parser

`/^ {3}at (.+) \(([^(]+)\)$/`: the anchored match forces a unique split —
group 2 cannot contain `(`, so the `\(` of the pattern is the last `(` of
the subject, the greedy group 1 is everything between the fixed prefix
and the space before it, and `$` pins the final `)`. Group 1 may not
contain a line terminator (`.`); group 2 may (its class excludes only
`(`). -/

/-- Complement of the `[^(]` class. -/
def nonParen (c : Char) : Bool := c != '('

/-- The frame-line grammar: `some (functionName, source)` on a match. -/
def frameRe (s : Str) : Option (Str × Str) :=
  if (str "   at ").isPrefixOf s then
    match (s.drop 6).reverse with
    | ')' :: q =>
      match q.dropWhile nonParen with
      | '(' :: ' ' :: fnR =>
        if fnR ≠ [] ∧ q.takeWhile nonParen ≠ [] ∧
            fnR.all (fun c => !isLineTerm c) then
          some (fnR.reverse, (q.takeWhile nonParen).reverse)
        else none
      | _ => none
    | _ => none
  else none

/-- `/^(.+):(\d+):(\d+)$/` on the source component: both numerals are the
maximal digit runs adjacent to the final two colons (a shorter capture
would put a digit where the pattern needs `:` or the end), and the greedy
group 1 is everything before them. -/
def srcRe (s : Str) : Option (Str × Nat × Nat) :=
  if s.reverse.takeWhile isDigit = [] then none
  else
    match s.reverse.dropWhile isDigit with
    | ':' :: q2 =>
      if q2.takeWhile isDigit = [] then none
      else
        match q2.dropWhile isDigit with
        | ':' :: fileR =>
          if fileR ≠ [] ∧ fileR.all (fun c => !isLineTerm c) then
            some (fileR.reverse,
              digitsToNat (q2.takeWhile isDigit).reverse,
              digitsToNat (s.reverse.takeWhile isDigit).reverse)
          else none
        | _ => none
    | _ => none

/-- The reconstructed text `   at fn (source:line:column+1)`. -/
def frameText (fn : Str) (p : Position) : Str :=
  str "   at " ++ fn ++ ' ' :: '(' :: p.source ++ ':' :: natToStr p.line ++
    ':' :: intToStr (p.column + 1) ++ [')']

/-- `remapStackLine` (source lines 272-306): pass-through for unmatched
lines, `native code` frames (which also clear the cursor) and `eval code`
frames; otherwise resolve and reconstitute, flagging sources under
`internal/`. -/
def remapStackLine (env : Env) (stackLine : Str) (ss : StackState)
    (st : St) : FrameInfo × StackState × St :=
  match frameRe stackLine with
  | none => (⟨stackLine, false⟩, ss, st)
  | some (fnname, source) =>
    if source = str "native code" ∨ source = str "native code:0:0" then
      (⟨stackLine, false⟩, { ss with curPosition := none }, st)
    else
      match srcRe source with
      | none => (⟨stackLine, false⟩, ss, st)
      | some (file, line, column) =>
        if fnname = str "eval code" then (⟨stackLine, false⟩, ss, st)
        else
          let (position, st) :=
            mapSourcePosition env ⟨file, line, (column : Int) - 1⟩ st
          (⟨frameText fnname position,
              (str "internal/").isPrefixOf position.source⟩,
            { ss with curPosition := some position }, st)

/-! ## Stack Remapper -/

/-- The first `for (; i >= 1; i--)` of `remapStack`: walk up from the
last line while frames are internal; on the first non-internal frame
truncate the array to end there, store the remapped text, and stop. The
returned `Nat` is the value of `i` when the loop exits (`0` when it fell
through). -/
def remapLoop1 (env : Env) : Nat → List Str → StackState → St →
    List Str × Nat × StackState × St
  | 0, frames, ss, st => (frames, 0, ss, st)
  | i + 1, frames, ss, st =>
    let (fr, ss, st) := remapStackLine env (frames.getD (i + 1) []) ss st
    if fr.internal then remapLoop1 env i frames ss st
    else
      ((frames.take (i + 2)).set (i + 1) fr.stackLine, i + 1,
        { ss with nextPosition := ss.curPosition }, st)

/-- The second `for (; i >= 1; i--)`: resume at the very index the break
left (so the boundary frame is processed a second time) and remap every
line down to index 1. -/
def remapLoop2 (env : Env) : Nat → List Str → StackState → St →
    List Str × StackState × St
  | 0, frames, ss, st => (frames, ss, st)
  | i + 1, frames, ss, st =>
    let (fr, ss, st) := remapStackLine env (frames.getD (i + 1) []) ss st
    remapLoop2 env i (frames.set (i + 1) fr.stackLine)
      { ss with nextPosition := ss.curPosition } st

/-- `remapStack` (source lines 247-267). -/
def remapStack (env : Env) (stack : Option Str) (st : St) :
    Option Str × St :=
  match stack with
  | none => (none, st)
  | some s =>
    let frames := splitNl s
    let (frames, b, ss, st) := remapLoop1 env (frames.length - 1) frames ss0 st
    let (frames, _, st) := remapLoop2 env b frames ss st
    (some (joinNl frames), st)

/-! ## Eval Origin Parser

`/^eval at ([^(]+) \((.+):(\d+):(\d+)\)$/` and the nested fallback
`/^eval at ([^(]+) \((.+)\)$/`. The function-name class excludes `(`, so
the `\(` of either pattern is the first `(` of the subject and the
capture is everything before the space in front of it. -/

/-- The shared `^eval at ([^(]+) \(` head: `some (fn, rest)` where `rest`
is the subject after the `(`. -/
def parseEvalHead (s : Str) : Option (Str × Str) :=
  if (str "eval at ").isPrefixOf s then
    match (s.drop 8).dropWhile nonParen with
    | '(' :: r =>
      if ((s.drop 8).takeWhile nonParen).getLast? = some ' ' ∧
          2 ≤ ((s.drop 8).takeWhile nonParen).length then
        some (((s.drop 8).takeWhile nonParen).dropLast, r)
      else none
    | _ => none
  else none

/-- The positional eval form: `some (fn, file, line, column)`. -/
def evalRe1 (s : Str) : Option (Str × Str × Nat × Nat) :=
  match parseEvalHead s with
  | some (fn, r) =>
    match r.reverse with
    | ')' :: q =>
      match srcRe q.reverse with
      | some (file, line, column) => some (fn, file, line, column)
      | none => none
    | _ => none
  | none => none

/-- The nested eval form: `some (fn, nestedOrigin)`. -/
def evalRe2 (s : Str) : Option (Str × Str) :=
  match parseEvalHead s with
  | some (fn, r) =>
    match r.getLast? with
    | some ')' =>
      if r.dropLast ≠ [] ∧ r.dropLast.all (fun c => !isLineTerm c) then
        some (fn, r.dropLast)
      else none
    | _ => none
  | none => none

theorem parseEvalHead_length {s fn r : Str}
    (h : parseEvalHead s = some (fn, r)) : r.length + 9 ≤ s.length := by
  unfold parseEvalHead at h
  split at h
  case isTrue hp =>
    split at h
    case h_1 c r' heq =>
      split at h
      case isTrue hcond =>
        rw [Option.some.injEq, Prod.mk.injEq] at h
        obtain ⟨-, hr⟩ := h
        subst hr
        have h1 := congrArg List.length heq
        simp only [List.length_cons] at h1
        have h2 : ((s.drop 8).dropWhile nonParen).length ≤ (s.drop 8).length :=
          (List.dropWhile_suffix nonParen).length_le
        have h3 : (s.drop 8).length = s.length - 8 := List.length_drop 8 s
        have h4 : (str "eval at ").length ≤ s.length :=
          (List.isPrefixOf_iff_prefix.mp hp).length_le
        have h5 : (str "eval at ").length = 8 := rfl
        omega
      case isFalse => exact absurd h (by simp)
    case h_2 => exact absurd h (by simp)
  case isFalse => exact absurd h (by simp)

theorem evalRe2_length {s fn inner : Str}
    (h : evalRe2 s = some (fn, inner)) : inner.length < s.length := by
  unfold evalRe2 at h
  split at h
  case h_1 fn' r heq =>
    have hr := parseEvalHead_length heq
    split at h
    case h_1 =>
      split at h
      case isTrue =>
        rw [Option.some.injEq, Prod.mk.injEq] at h
        obtain ⟨-, hi⟩ := h
        subst hi
        have hd : r.dropLast.length = r.length - 1 := List.length_dropLast r
        omega
      case isFalse => exact absurd h (by simp)
    case h_2 => exact absurd h (by simp)
  case h_2 => exact absurd h (by simp)

/-- `mapEvalOrigin` (source lines 212-232): remap the positional form,
recurse on the nested form (on a strictly shorter substring), and return
anything else unchanged. -/
def mapEvalOrigin (env : Env) (origin : Str) (st : St) : Str × St :=
  match evalRe1 origin with
  | some (fn, file, line, column) =>
    let (position, st) :=
      mapSourcePosition env ⟨file, line, (column : Int) - 1⟩ st
    (str "eval at " ++ fn ++ ' ' :: '(' :: position.source ++
      ':' :: natToStr position.line ++ ':' :: intToStr (position.column + 1) ++
      [')'], st)
  | none =>
    match h2 : evalRe2 origin with
    | some (fn, inner) =>
      let (r, st) := mapEvalOrigin env inner st
      (str "eval at " ++ fn ++ ' ' :: '(' :: r ++ [')'], st)
    | none => (origin, st)
termination_by origin.length
decreasing_by exact evalRe2_length h2

/-! ## Snippet extraction

`/\n {3}at [^(]+ \((.*):(\d+):(\d+)\)/` without anchors: the engine takes
the leftmost starting position at which the whole pattern matches. At a
given start, `[^(]+ \(` forces the first `(` after the literal prefix as
before; `(.*)` is greedy with real backtracking — the longest
terminator-free prefix of the remainder after which `:(\d+):(\d+)\)`
matches (both numerals maximal digit runs, as their successor tokens are
non-digits). -/

/-- `:(\d+):(\d+)\)` at the head of `u`: `some (line, column)`. -/
def checkColCol (u : Str) : Option (Nat × Nat) :=
  match u with
  | ':' :: u1 =>
    if u1.takeWhile isDigit = [] then none
    else
      match u1.dropWhile isDigit with
      | ':' :: u2 =>
        if u2.takeWhile isDigit = [] then none
        else
          match u2.dropWhile isDigit with
          | ')' :: _ =>
            some (digitsToNat (u1.takeWhile isDigit),
              digitsToNat (u2.takeWhile isDigit))
          | _ => none
      | _ => none
  | _ => none

/-- Backtracking search for the `(.*)` split: try capture lengths from
`k` down to `0`. -/
def searchSplit (r : Str) : Nat → Option (Str × Nat × Nat)
  | 0 =>
    match checkColCol r with
    | some (line, column) => some ([], line, column)
    | none => none
  | k + 1 =>
    match checkColCol (r.drop (k + 1)) with
    | some (line, column) => some (r.take (k + 1), line, column)
    | none => searchSplit r k

/-- One attempt of the snippet regex with the `\n` at the head of `s`:
`some (source, line, column)`. -/
def tryErrFrame (s : Str) : Option (Str × Nat × Nat) :=
  if (str "\n   at ").isPrefixOf s then
    match (s.drop 7).dropWhile nonParen with
    | '(' :: r =>
      if ((s.drop 7).takeWhile nonParen).getLast? = some ' ' ∧
          2 ≤ ((s.drop 7).takeWhile nonParen).length then
        searchSplit r (r.takeWhile (fun c => !isLineTerm c)).length
      else none
    | _ => none
  else none

/-- The leftmost match of the snippet regex over the whole subject. -/
def execErrFrame : Str → Option (Str × Nat × Nat)
  | [] => none
  | c :: rest =>
    match tryErrFrame (c :: rest) with
    | some g => some g
    | none => execErrFrame rest

/-- The `contents` resolution of `getErrorSource`: cache first, then a
guarded direct read whose thrown error becomes the empty string. -/
def errContents (env : Env) (st : St) (source : Str) : Str :=
  let cached := (lookupA st.fileContentsCache source).getD []
  if cached = [] ∧ env.fsExists source then (env.fsRead source).getD []
  else cached

/-- `getErrorSource` (source lines 320-348). A missing `error.stack` is
coerced by `exec` to the string `"undefined"`. The snippet line is
`contents.split(/(?:\r\n|\r|\n)/)[line - 1]`, which is falsy (and yields
`null`) when the index is out of range or the line is empty;
`new Array(column).join(' ')` is `column - 1` spaces. -/
def getErrorSource (env : Env) (st : St) (stack : Option Str) :
    Option Str :=
  match execErrFrame (stack.getD (str "undefined")) with
  | none => none
  | some (source, line, column) =>
    let contents := errContents env st source
    if contents = [] then none
    else
      let code :=
        if line = 0 then none else (splitLines contents).get? (line - 1)
      match code with
      | some c =>
        if c = [] then none
        else
          some (source ++ ':' :: natToStr line ++ '\n' :: c ++
            '\n' :: List.replicate (column - 1) ' ' ++ ['^'])
      | none => none

/-! ## Concrete environments for witnesses and counterexamples -/

/-- A consumer for which every query misses, as decoding an empty map
would give. -/
def nullConsumer : Consumer := ⟨fun _ => ⟨none, 0, 0⟩, fun _ => none, []⟩

/-- An environment with no filesystem, no extra handlers and a decoder
that never matches. -/
def envEmpty : Env :=
  { fsExists := fun _ => false
    fsRead := fun _ => none
    consumerOf := fun _ => nullConsumer
    base64Decode := fun _ => []
    extraMapHandlers := []
    cwd := str "/" }

/-- A filesystem carrying one file whose only sourceMappingURL comment is
in block-comment form, and one in line-comment form. -/
def envC1 : Env :=
  { envEmpty with
    fsExists := fun p => p = str "/gen.js" || p = str "/line.js"
    fsRead := fun p =>
      if p = str "/gen.js" then some (str "/*# sourceMappingURL=foo.js.map */")
      else if p = str "/line.js" then some (str "//# sourceMappingURL=bar.js.map")
      else none }

/-- Claim C1: the URL scan is supposed to return the URL captured from
the last match in document order for both comment forms. The line-comment
form does yield its URL, but the block-comment alternative captures into
group 2 while `retrieveSourceMapURL` returns `lastMatch[1]`, so a file
whose only sourceMappingURL comment is a block comment yields JavaScript
`undefined` (modelled `some none`; the declared return type
`string | null` admits neither), not the URL. -/
theorem c1_block_comment_url_is_undefined :
    (retrieveSourceMapURL envC1 (str "/line.js") st0).1 =
      some (some (str "bar.js.map")) ∧
    (retrieveSourceMapURL envC1 (str "/gen.js") st0).1 = some none ∧
    (retrieveSourceMapURL envC1 (str "/gen.js") st0).1 ≠
      some (some (str "foo.js.map")) := by
  refine ⟨by decide, by decide, by decide⟩

/-- Claim C5: every input that fails the frame grammar — no `   at fn
(source)` shape, no `source:line:column` split — and the native-code and
eval-code special cases are returned unchanged with `internal = false`. -/
theorem c5_unmatched_lines_pass_through (env : Env) (line : Str)
    (ss : StackState) (st : St)
    (h : frameRe line = none ∨
      ∃ fn src, frameRe line = some (fn, src) ∧
        (src = str "native code" ∨ src = str "native code:0:0" ∨
          srcRe src = none ∨ fn = str "eval code")) :
    (remapStackLine env line ss st).1 = ⟨line, false⟩ := by
  rcases h with h | ⟨fn, src, hsome, hcase⟩
  · simp [remapStackLine, h]
  · rcases hcase with h1 | h1 | h1 | h1
    · simp [remapStackLine, hsome, h1]
    · simp [remapStackLine, hsome, h1]
    · by_cases hn : src = str "native code" ∨ src = str "native code:0:0"
      · simp [remapStackLine, hsome, hn]
      · simp [remapStackLine, hsome, hn, h1]
    · by_cases hn : src = str "native code" ∨ src = str "native code:0:0"
      · simp [remapStackLine, hsome, hn]
      · rcases hs : srcRe src with _ | ⟨file, l, c⟩
        · simp [remapStackLine, hsome, hn, hs]
        · simp [remapStackLine, hsome, hn, hs, h1]

/-- Witness for C5 at a line that matches no frame grammar. -/
theorem c5_witness :
    frameRe (str "hello") = none ∧
    (remapStackLine envEmpty (str "hello") ss0 st0).1 = ⟨str "hello", false⟩ :=
  ⟨by decide,
    c5_unmatched_lines_pass_through envEmpty (str "hello") ss0 st0
      (Or.inl (by decide))⟩

/-- When the first pass falls through (exits with `i = 0`), it never
truncated or wrote, so the frame array is untouched. -/
theorem remapLoop1_fallthrough (env : Env) :
    ∀ (v : Nat) (frames : List Str) (ss : StackState) (st : St),
      (remapLoop1 env v frames ss st).2.1 = 0 →
      (remapLoop1 env v frames ss st).1 = frames := by
  intro v
  induction v with
  | zero => intro frames ss st _; rfl
  | succ n ih =>
    intro frames ss st h
    rcases hr : remapStackLine env (frames.getD (n + 1) []) ss st
      with ⟨f, ss', st'⟩
    by_cases hi : f.internal
    · have hstep : remapLoop1 env (n + 1) frames ss st =
          remapLoop1 env n frames ss' st' := by
        simp only [remapLoop1]
        rw [hr]
        simp [hi]
      rw [hstep] at h ⊢
      exact ih frames ss' st' h
    · have hstep : (remapLoop1 env (n + 1) frames ss st).2.1 = n + 1 := by
        simp only [remapLoop1]
        rw [hr]
        simp [hi]
      rw [hstep] at h
      exact absurd h (Nat.succ_ne_zero n)

/-- Claim C10: a stack with at least one frame line in which the first
pass reaches the top without finding a non-internal frame (every frame
line classified internal along the scan) is returned completely
unchanged: nothing is dropped and nothing is rewritten, because the
truncation-and-write happens only on the break, and the second pass then
runs zero iterations. -/
theorem c10_all_internal_unchanged (env : Env) (s : Str) (st : St)
    (hframes : 2 ≤ (splitNl s).length)
    (hb : (remapLoop1 env ((splitNl s).length - 1) (splitNl s) ss0 st).2.1
      = 0) :
    (remapStack env (some s) st).1 = some s := by
  have hfr := remapLoop1_fallthrough env ((splitNl s).length - 1)
    (splitNl s) ss0 st hb
  rcases hL : remapLoop1 env ((splitNl s).length - 1) (splitNl s) ss0 st
    with ⟨fr', b, ss', st'⟩
  rw [hL] at hfr hb
  simp only at hfr hb
  subst hb
  subst hfr
  simp [remapStack, hL, remapLoop2, joinNl_splitNl]

/-- Witness for C10: one header plus one `internal/` frame, no maps. -/
theorem c10_witness :
    2 ≤ (splitNl (str "E\n   at f (internal/x.js:1:1)")).length ∧
    (remapLoop1 envEmpty
        ((splitNl (str "E\n   at f (internal/x.js:1:1)")).length - 1)
        (splitNl (str "E\n   at f (internal/x.js:1:1)")) ss0 st0).2.1 = 0 ∧
    (remapStack envEmpty (some (str "E\n   at f (internal/x.js:1:1)"))
        st0).1 =
      some (str "E\n   at f (internal/x.js:1:1)") :=
  ⟨by decide, by decide,
    c10_all_internal_unchanged envEmpty (str "E\n   at f (internal/x.js:1:1)")
      st0 (by decide) (by decide)⟩


/-! ## State lemmas: nothing on the retrieval path touches the map cache -/

theorem retrieveFileHandlerDefault_smCache (env : Env) (p : Str) (st : St) :
    (retrieveFileHandlerDefault env p st).2.sourceMapCache =
      st.sourceMapCache := by
  rcases h : lookupA st.fileContentsCache (normalizePath p) with _ | v
  · simp [retrieveFileHandlerDefault, h]
  · simp [retrieveFileHandlerDefault, h]

theorem retrieveFile_smCache (env : Env) (p : Str) (st : St) :
    (retrieveFile env p st).2.sourceMapCache = st.sourceMapCache := by
  have h := retrieveFileHandlerDefault_smCache env p st
  rcases hd : retrieveFileHandlerDefault env p st with ⟨r, st'⟩
  rw [hd] at h
  simp only at h
  by_cases hr : r = [] <;> simp [retrieveFile, hd, hr, h]

theorem retrieveSourceMapURL_smCache (env : Env) (source : Str) (st : St) :
    (retrieveSourceMapURL env source st).2.sourceMapCache =
      st.sourceMapCache := by
  have h := retrieveFile_smCache env source st
  rcases hd : retrieveFile env source st with ⟨r, st'⟩
  rw [hd] at h
  simp only at h
  simp [retrieveSourceMapURL, hd, h]

theorem retrieveMapHandlerDefault_smCache (env : Env) (source : Str)
    (st : St) :
    (retrieveMapHandlerDefault env source st).2.sourceMapCache =
      st.sourceMapCache := by
  have h := retrieveSourceMapURL_smCache env source st
  rcases hd : retrieveSourceMapURL env source st with ⟨u, st'⟩
  rw [hd] at h
  simp only at h
  simp only [retrieveMapHandlerDefault]
  rw [hd]
  rcases u with _ | u
  · exact h
  · rcases u with _ | url
    · exact h
    · simp only
      split
      · exact h
      · split
        · split
          · exact h
          · exact h
        · have h2 := retrieveFile_smCache env
            (supportRelativeURL env (some source) url) st'
          rcases hd2 : retrieveFile env
              (supportRelativeURL env (some source) url) st' with ⟨d, st2⟩
          rw [hd2] at h2
          simp only at h2
          rcases d with _ | d
          · exact h2.trans h
          · simp only
            split
            · exact h2.trans h
            · exact h2.trans h

theorem runExtraHandlers_smCache (source : Str) (st : St)
    (handlers : List (Str → Option UrlAndMap)) :
    (runExtraHandlers handlers source st).2.sourceMapCache =
      st.sourceMapCache := by
  induction handlers generalizing st with
  | nil => rfl
  | cons h t ih =>
    simp only [runExtraHandlers]
    rcases h source with _ | u
    · simpa using ih _
    · rfl

theorem retrieveSourceMapChain_smCache (env : Env) (source : Str) (st : St) :
    (retrieveSourceMapChain env source st).2.sourceMapCache =
      st.sourceMapCache := by
  have h := retrieveMapHandlerDefault_smCache env source
    { st with handlerCalls := st.handlerCalls + 1 }
  rcases hd : retrieveMapHandlerDefault env source
      { st with handlerCalls := st.handlerCalls + 1 } with ⟨r, st2⟩
  rw [hd] at h
  simp only at h
  simp only [retrieveSourceMapChain]
  rw [hd]
  rcases r with _ | u
  · simpa [runExtraHandlers_smCache] using h
  · exact h

theorem preloadSources_smCache (env : Env) (url : Option Str) (c : Consumer)
    (st : St) :
    (preloadSources env url c st).sourceMapCache = st.sourceMapCache := by
  unfold preloadSources
  generalize c.sources = srcs
  induction srcs generalizing st with
  | nil => rfl
  | cons a t ih =>
    simp only [List.foldl_cons]
    rcases c.sourceContentFor a with _ | contents
    · exact ih _
    · by_cases hc : contents = [] <;> simp [hc, ih]


/-- A map-cache entry survives any later `mapSourcePosition` call: the
function writes the cache only at a key that was absent. -/
theorem mapSourcePosition_preserves_entry (env : Env) (q : Position)
    (st : St) (key : Str) (e : SMEntry)
    (h : lookupA st.sourceMapCache key = some e) :
    lookupA (mapSourcePosition env q st).2.sourceMapCache key = some e := by
  rcases hl : lookupA st.sourceMapCache q.source with _ | sm
  · have hne : q.source ≠ key := fun hk => by rw [hk, h] at hl; cases hl
    have hch := retrieveSourceMapChain_smCache env q.source st
    rcases hd : retrieveSourceMapChain env q.source st with ⟨uam, st1⟩
    rw [hd] at hch
    simp only at hch
    rcases uam with _ | u
    · simp only [mapSourcePosition, hl, hd]
      rw [lookupA_setA, if_neg hne, hch]
      exact h
    · rcases hu : useMapEntry env ⟨u.url, some (env.consumerOf u.map)⟩ q
        with _ | pp
      · simp only [mapSourcePosition, hl, hd, hu, preloadSources_smCache]
        rw [lookupA_setA, if_neg hne, hch]
        exact h
      · simp only [mapSourcePosition, hl, hd, hu, preloadSources_smCache]
        rw [lookupA_setA, if_neg hne, hch]
        exact h
  · rcases hu : useMapEntry env sm q with _ | pp
    · simp only [mapSourcePosition, hl, hu]
      exact h
    · simp only [mapSourcePosition, hl, hu]
      exact h

/-- Claim C3: a failed retrieval stores the terminal negative entry
`⟨none, none⟩`; with that entry in the cache, any later resolution of the
same source returns its input with the state — the handler-invocation
counter included — completely untouched, and the entry itself survives
resolutions of other sources. -/
theorem c3_negative_cache_is_terminal (env : Env) (p : Position) (st : St)
    (h0 : lookupA st.sourceMapCache p.source = none)
    (h1 : (retrieveSourceMapChain env p.source st).1 = none) :
    (mapSourcePosition env p st).1 = p ∧
    lookupA (mapSourcePosition env p st).2.sourceMapCache p.source =
      some ⟨none, none⟩ ∧
    (∀ (q : Position) (st' : St), q.source = p.source →
      lookupA st'.sourceMapCache p.source = some ⟨none, none⟩ →
      mapSourcePosition env q st' = (q, st')) ∧
    (∀ (q : Position) (st' : St) (e : SMEntry),
      lookupA st'.sourceMapCache p.source = some e →
      lookupA (mapSourcePosition env q st').2.sourceMapCache p.source =
        some e) := by
  refine ⟨?_, ?_, ?_, ?_⟩
  · simp only [mapSourcePosition, h0]
    rcases hd : retrieveSourceMapChain env p.source st with ⟨uam, st1⟩
    rw [hd] at h1
    simp only at h1
    subst h1
    rfl
  · simp only [mapSourcePosition, h0]
    rcases hd : retrieveSourceMapChain env p.source st with ⟨uam, st1⟩
    rw [hd] at h1
    simp only at h1
    subst h1
    simp [lookupA_setA]
  · intro q st' hq hneg
    simp only [mapSourcePosition, hq, hneg]
    rfl
  · intro q st' e he
    exact mapSourcePosition_preserves_entry env q st' p.source e he

/-- Witness for C3 on the empty environment and state. -/
theorem c3_witness :
    lookupA st0.sourceMapCache (str "a.js") = none ∧
    (retrieveSourceMapChain envEmpty (str "a.js") st0).1 = none ∧
    (mapSourcePosition envEmpty ⟨str "a.js", 1, 0⟩ st0).1 =
      (⟨str "a.js", 1, 0⟩ : Position) :=
  ⟨rfl, by decide,
    (c3_negative_cache_is_terminal envEmpty ⟨str "a.js", 1, 0⟩ st0
      rfl (by decide)).1⟩

/-- Claim C4: when no map is available for the source (no cache entry and
a failing handler chain, or a terminal negative entry), or the decoded
map's `originalPositionFor` reports a `null` source, `mapSourcePosition`
returns its input position unchanged. -/
theorem c4_unmapped_position_returned_unchanged (env : Env) (p : Position)
    (st : St)
    (h : effectiveMap env p.source st = none ∨
      ∃ c, effectiveMap env p.source st = some c ∧
        (c.originalPositionFor p).source = none) :
    (mapSourcePosition env p st).1 = p := by
  unfold effectiveMap at h
  rcases hl : lookupA st.sourceMapCache p.source with _ | sm
  · rw [hl] at h
    simp only at h
    rcases hd : retrieveSourceMapChain env p.source st with ⟨uam, st1⟩
    rw [hd] at h
    simp only at h
    rcases uam with _ | u
    · simp [mapSourcePosition, hl, hd]
    · simp only at h
      rcases h with h | ⟨c, hc, hsrc⟩
      · exact absurd h (by simp)
      · rw [Option.some.injEq] at hc
        subst hc
        simp [mapSourcePosition, hl, hd, useMapEntry, hsrc]
  · rw [hl] at h
    simp only at h
    rcases h with h | ⟨c, hc, hsrc⟩
    · simp [mapSourcePosition, hl, useMapEntry, h]
    · simp [mapSourcePosition, hl, useMapEntry, hc, hsrc]

/-- Witness for C4 on the empty environment. -/
theorem c4_witness :
    effectiveMap envEmpty (str "a.js") st0 = none ∧
    (mapSourcePosition envEmpty ⟨str "a.js", 3, 7⟩ st0).1 =
      (⟨str "a.js", 3, 7⟩ : Position) :=
  ⟨rfl,
    c4_unmapped_position_returned_unchanged envEmpty ⟨str "a.js", 3, 7⟩ st0
      (Or.inl rfl)⟩

/-- Claim C8: the Content Store's fetch (the built-in file handler) never
throws — it is a total function here by construction, with a thrown
`readFileSync` modelled as `fsRead = none` and swallowed. For an uncached
path whose read fails or which does not exist, it caches and returns the
empty string (one filesystem touch); for a cached path (any cached value,
in particular the empty string just cached), it returns the cached
content with no state change and no filesystem access. -/
theorem c8_fetch_never_throws_and_caches (env : Env) (p : Str) (st : St)
    (h1 : lookupA st.fileContentsCache (normalizePath p) = none)
    (h2 : env.fsExists (normalizePath p) = false ∨
      env.fsRead (normalizePath p) = none) :
    (retrieveFileHandlerDefault env p st).1 = [] ∧
    lookupA (retrieveFileHandlerDefault env p st).2.fileContentsCache
      (normalizePath p) = some [] ∧
    (retrieveFileHandlerDefault env p st).2.fsAccesses =
      st.fsAccesses + 1 ∧
    (∀ (st' : St) (v : Str),
      lookupA st'.fileContentsCache (normalizePath p) = some v →
      retrieveFileHandlerDefault env p st' = (v, st')) ∧
    retrieveFileHandlerDefault env p (retrieveFileHandlerDefault env p st).2
      = ([], (retrieveFileHandlerDefault env p st).2) := by
  have hcontents :
      (if env.fsExists (normalizePath p) = true
        then (env.fsRead (normalizePath p)).getD [] else []) = [] := by
    rcases h2 with h2 | h2
    · simp [h2]
    · by_cases he : env.fsExists (normalizePath p) = true <;> simp [he, h2]
  have hcached : ∀ (st' : St) (v : Str),
      lookupA st'.fileContentsCache (normalizePath p) = some v →
      retrieveFileHandlerDefault env p st' = (v, st') := by
    intro st' v hv
    simp [retrieveFileHandlerDefault, hv]
  refine ⟨?_, ?_, ?_, hcached, ?_⟩
  · simp [retrieveFileHandlerDefault, h1, hcontents]
  · simp [retrieveFileHandlerDefault, h1, hcontents, lookupA_setA]
  · simp [retrieveFileHandlerDefault, h1]
  · have hmid :
        lookupA (retrieveFileHandlerDefault env p st).2.fileContentsCache
          (normalizePath p) = some [] := by
      simp [retrieveFileHandlerDefault, h1, hcontents, lookupA_setA]
    exact hcached _ [] hmid

/-- Witness for C8: a missing file on the empty environment. -/
theorem c8_witness :
    lookupA st0.fileContentsCache (normalizePath (str "/nope.js")) = none ∧
    envEmpty.fsExists (normalizePath (str "/nope.js")) = false ∧
    (retrieveFileHandlerDefault envEmpty (str "/nope.js") st0).1 = [] :=
  ⟨rfl, by decide,
    (c8_fetch_never_throws_and_caches envEmpty (str "/nope.js") st0
      rfl (Or.inl (by decide))).1⟩

/-- Claim C9: when the first parseable frame of the stack names a source
whose content is available but shorter (in lines) than the frame's line
number, `getErrorSource` produces no snippet: the indexed line is
`undefined`, which the `if (code)` guard turns into `null`. -/
theorem c9_snippet_null_when_line_out_of_range (env : Env) (st : St)
    (stack : Option Str) (source : Str) (line column : Nat)
    (hm : execErrFrame (stack.getD (str "undefined")) =
      some (source, line, column))
    (hc : errContents env st source ≠ [])
    (hl : (splitLines (errContents env st source)).length < line) :
    getErrorSource env st stack = none := by
  unfold getErrorSource
  rw [hm]
  simp only [if_neg hc]
  have hz : ¬ line = 0 := by omega
  rw [if_neg hz]
  have hnone : (splitLines (errContents env st source)).get? (line - 1)
      = none := by
    rw [List.get?_eq_none]
    omega
  rw [hnone]

/-- Witness for C9: a two-line file referenced at line 5. -/
theorem c9_witness :
    execErrFrame ((some (str "Error\n   at f (/x.js:5:1)")).getD
        (str "undefined")) = some (str "/x.js", 5, 1) ∧
    getErrorSource envEmpty
      { st0 with fileContentsCache := [(str "/x.js", str "one\ntwo")] }
      (some (str "Error\n   at f (/x.js:5:1)")) = none :=
  ⟨by decide,
    c9_snippet_null_when_line_out_of_range envEmpty
      { st0 with fileContentsCache := [(str "/x.js", str "one\ntwo")] }
      (some (str "Error\n   at f (/x.js:5:1)")) (str "/x.js") 5 1
      (by decide) (by decide) (by decide)⟩

/-! ## The eval-origin grammar on constructed strings -/

/-- `dropWhile` jumps over a prefix every element of which satisfies the
predicate. -/
theorem dropWhile_append_all {p : Char → Bool} (xs ys : Str)
    (h : ∀ x ∈ xs, p x = true) :
    (xs ++ ys).dropWhile p = ys.dropWhile p := by
  induction xs with
  | nil => simp
  | cons a t ih =>
    have ha : p a = true := h a (List.mem_cons_self a t)
    simp only [List.cons_append, List.dropWhile_cons, ha, if_true]
    exact ih (fun x hx => h x (List.mem_cons_of_mem a hx))

theorem nonParen_of_not_mem {fn : Str} (hp : '(' ∉ fn) :
    ∀ x ∈ fn ++ [' '], nonParen x = true := by
  intro x hx
  rcases List.mem_append.mp hx with hx | hx
  · have hne : x ≠ '(' := fun he => hp (he ▸ hx)
    simp [nonParen, hne]
  · simp only [List.mem_singleton] at hx
    subst hx
    decide

/-- The shared eval head accepts exactly the constructed form. -/
theorem parseEvalHead_mk (fn rest : Str) (hfn : fn ≠ []) (hp : '(' ∉ fn) :
    parseEvalHead (str "eval at " ++ (fn ++ (' ' :: '(' :: rest))) =
      some (fn, rest) := by
  have hall := nonParen_of_not_mem hp
  have hpre : (str "eval at ").isPrefixOf
      (str "eval at " ++ (fn ++ (' ' :: '(' :: rest))) = true :=
    List.isPrefixOf_iff_prefix.mpr ⟨_, rfl⟩
  have hdrop : (str "eval at " ++ (fn ++ (' ' :: '(' :: rest))).drop 8 =
      (fn ++ [' ']) ++ ('(' :: rest) := by
    rw [show (8 : Nat) = (str "eval at ").length from rfl, List.drop_left]
    simp
  have h1 : ('(' :: rest).dropWhile nonParen = '(' :: rest := by
    simp [List.dropWhile_cons, nonParen]
  have h2 : ('(' :: rest).takeWhile nonParen = [] := by
    simp [List.takeWhile_cons, nonParen]
  have h3 : (fn ++ [' ']).getLast? = some ' ' := List.getLast?_concat fn
  have h4 : 2 ≤ (fn ++ [' ']).length := by
    have : 0 < fn.length := List.length_pos.mpr hfn
    simp only [List.length_append, List.length_singleton]
    omega
  unfold parseEvalHead
  rw [if_pos hpre, hdrop, dropWhile_append_all _ _ hall,
    takeWhile_append_all _ _ hall, h1, h2, List.append_nil]
  simp [h3, h4, hfn, List.dropLast_concat]

/-- `^(.+):(\d+):(\d+)$` accepts exactly the constructed source triple. -/
theorem srcRe_mk (file A B : Str) (hf : file ≠ [])
    (hflt : file.all (fun c => !isLineTerm c) = true)
    (hA : A ≠ []) (hAd : A.all isDigit = true)
    (hB : B ≠ []) (hBd : B.all isDigit = true) :
    srcRe (file ++ (':' :: (A ++ (':' :: B)))) =
      some (file, digitsToNat A, digitsToNat B) := by
  have hArev : ∀ x ∈ A.reverse, isDigit x = true := by
    intro x hx
    exact List.all_eq_true.mp hAd x (List.mem_reverse.mp hx)
  have hBrev : ∀ x ∈ B.reverse, isDigit x = true := by
    intro x hx
    exact List.all_eq_true.mp hBd x (List.mem_reverse.mp hx)
  have hcolon : isDigit ':' = false := by decide
  have hrev : (file ++ (':' :: (A ++ (':' :: B)))).reverse =
      B.reverse ++ (':' :: (A.reverse ++ (':' :: file.reverse))) := by
    simp
  have htB : (B.reverse ++ (':' :: (A.reverse ++ (':' :: file.reverse)))).takeWhile
      isDigit = B.reverse := by
    rw [takeWhile_append_all _ _ hBrev]
    simp [List.takeWhile_cons, hcolon]
  have hdB : (B.reverse ++ (':' :: (A.reverse ++ (':' :: file.reverse)))).dropWhile
      isDigit = ':' :: (A.reverse ++ (':' :: file.reverse)) := by
    rw [dropWhile_append_all _ _ hBrev]
    simp [List.dropWhile_cons, hcolon]
  have htA : (A.reverse ++ (':' :: file.reverse)).takeWhile isDigit =
      A.reverse := by
    rw [takeWhile_append_all _ _ hArev]
    simp [List.takeWhile_cons, hcolon]
  have hdA : (A.reverse ++ (':' :: file.reverse)).dropWhile isDigit =
      ':' :: file.reverse := by
    rw [dropWhile_append_all _ _ hArev]
    simp [List.dropWhile_cons, hcolon]
  have hBne : ¬ B.reverse = [] := by simpa using hB
  have hAne : ¬ A.reverse = [] := by simpa using hA
  have hfne : file.reverse ≠ [] := by simpa using hf
  have hfall : file.reverse.all (fun c => !isLineTerm c) = true := by
    rw [List.all_eq_true] at hflt ⊢
    intro x hx
    exact hflt x (List.mem_reverse.mp hx)
  unfold srcRe
  simp only [hrev, htB, hdB]
  rw [if_neg hBne]
  simp only [htA, hdA]
  rw [if_neg hAne, if_pos ⟨hfne, hfall⟩]
  simp

/-- The positional form rejects a parenthesised body that itself ends in
`)`: the final numeral capture would have to end at that `)`. -/
theorem srcRe_concat_paren (x : Str) : srcRe (x ++ [')']) = none := by
  have h1 : (x ++ [')']).reverse = ')' :: x.reverse := by simp
  have h2 : isDigit ')' = false := by decide
  unfold srcRe
  simp [h1, List.takeWhile_cons, h2]

theorem evalRe1_mk (fn file A B : Str) (hfn : fn ≠ [])
    (hp : '(' ∉ fn) (hf : file ≠ [])
    (hflt : file.all (fun c => !isLineTerm c) = true)
    (hA : A ≠ []) (hAd : A.all isDigit = true)
    (hB : B ≠ []) (hBd : B.all isDigit = true) :
    evalRe1 (str "eval at " ++ (fn ++ (' ' :: '(' ::
        ((file ++ (':' :: (A ++ (':' :: B)))) ++ [')'])))) =
      some (fn, file, digitsToNat A, digitsToNat B) := by
  have hhead := parseEvalHead_mk fn ((file ++ (':' :: (A ++ (':' :: B)))) ++
    [')']) hfn hp
  have hrev : (((file ++ (':' :: (A ++ (':' :: B)))) ++ [')'])).reverse =
      ')' :: (file ++ (':' :: (A ++ (':' :: B)))).reverse := by simp
  unfold evalRe1
  simp only [hhead, hrev, List.reverse_reverse]
  rw [srcRe_mk file A B hf hflt hA hAd hB hBd]

theorem evalRe2_mk (fn inner : Str) (hfn : fn ≠ []) (hp : '(' ∉ fn)
    (hi : inner ≠ []) (hilt : inner.all (fun c => !isLineTerm c) = true) :
    evalRe2 (str "eval at " ++ (fn ++ (' ' :: '(' :: (inner ++ [')'])))) =
      some (fn, inner) := by
  have hhead := parseEvalHead_mk fn (inner ++ [')']) hfn hp
  unfold evalRe2
  simp only [hhead, List.getLast?_concat, List.dropLast_concat]
  simp [hi, hilt]

theorem evalRe1_nested_none (fn x : Str) (hfn : fn ≠ []) (hp : '(' ∉ fn) :
    evalRe1 (str "eval at " ++ (fn ++ (' ' :: '(' ::
        ((x ++ [')']) ++ [')'])))) = none := by
  have hhead := parseEvalHead_mk fn ((x ++ [')']) ++ [')']) hfn hp
  have hrev : ((x ++ [')']) ++ [')']).reverse = ')' :: (x ++ [')']).reverse :=
    by simp
  unfold evalRe1
  simp only [hhead, hrev, List.reverse_reverse]
  rw [srcRe_concat_paren]

theorem digit_not_lineterm (c : Char) (h : isDigit c = true) :
    (!isLineTerm c) = true := by
  unfold isDigit at h
  rw [decide_eq_true_eq] at h
  unfold isLineTerm
  have h10 : c.toNat ≠ 10 := by omega
  have h13 : c.toNat ≠ 13 := by omega
  have h28 : c.toNat ≠ 0x2028 := by omega
  have h29 : c.toNat ≠ 0x2029 := by omega
  simp [List.contains, h10, h13, h28, h29]

theorem all_not_lineterm_of_digits {A : Str} (h : A.all isDigit = true) :
    A.all (fun c => !isLineTerm c) = true := by
  rw [List.all_eq_true] at h ⊢
  exact fun x hx => digit_not_lineterm x (h x hx)

/-- Claim C7: `mapEvalOrigin` is total (its nested-form recursion is on a
strictly shorter substring, which is the second conjunct), returns
unmatched input unchanged (first conjunct), and on the doubly-nested form
`eval at fn1 (eval at fn2 (file:A:B))` remaps the innermost position via
`mapSourcePosition` while reproducing the surrounding `eval at fn (...)`
text of both levels (third conjunct). -/
theorem c7_eval_origin_recursion (env : Env) (st : St)
    (fn1 fn2 file A B : Str) (pos : Position) (st2 : St)
    (hfn1 : fn1 ≠ []) (hp1 : '(' ∉ fn1)
    (hfn2 : fn2 ≠ []) (hp2 : '(' ∉ fn2)
    (hlt2 : fn2.all (fun c => !isLineTerm c) = true)
    (hf : file ≠ []) (hflt : file.all (fun c => !isLineTerm c) = true)
    (hA : A ≠ []) (hAd : A.all isDigit = true)
    (hB : B ≠ []) (hBd : B.all isDigit = true)
    (hmap : mapSourcePosition env
      ⟨file, digitsToNat A, (digitsToNat B : Int) - 1⟩ st = (pos, st2)) :
    (∀ (origin : Str), evalRe1 origin = none → evalRe2 origin = none →
      (mapEvalOrigin env origin st).1 = origin) ∧
    (∀ (s fn inner : Str), evalRe2 s = some (fn, inner) →
      inner.length < s.length) ∧
    (mapEvalOrigin env
        (str "eval at " ++ (fn1 ++ (' ' :: '(' ::
          ((str "eval at " ++ (fn2 ++ (' ' :: '(' ::
            ((file ++ (':' :: (A ++ (':' :: B)))) ++ [')'])))) ++ [')']))))
        st).1 =
      str "eval at " ++ (fn1 ++ (' ' :: '(' ::
        ((str "eval at " ++ (fn2 ++ (' ' :: '(' ::
          ((pos.source ++ (':' :: (natToStr pos.line ++
            (':' :: intToStr (pos.column + 1))))) ++ [')'])))) ++ [')']))) := by
  refine ⟨?_, fun s fn inner h => evalRe2_length h, ?_⟩
  · intro origin h1 h2
    unfold mapEvalOrigin
    simp only [h1]
    split
    next fn inner heq => rw [h2] at heq; cases heq
    next => rfl
  · have h8 : str "eval at " ≠ [] := by decide
    have hAnlt := all_not_lineterm_of_digits hAd
    have hBnlt := all_not_lineterm_of_digits hBd
    have hinner_ne : str "eval at " ++ (fn2 ++ (' ' :: '(' ::
        ((file ++ (':' :: (A ++ (':' :: B)))) ++ [')']))) ≠ [] :=
      fun h => h8 (List.append_eq_nil.mp h).1
    have hinner_all : (str "eval at " ++ (fn2 ++ (' ' :: '(' ::
        ((file ++ (':' :: (A ++ (':' :: B)))) ++ [')'])))).all
        (fun c => !isLineTerm c) = true := by
      simp only [List.all_append, List.all_cons, Bool.and_eq_true]
      refine ⟨by decide, hlt2, by decide, by decide, ⟨⟨hflt, by decide,
        hAnlt, by decide, hBnlt⟩, by decide⟩⟩
    have hx : str "eval at " ++ (fn2 ++ (' ' :: '(' ::
        ((file ++ (':' :: (A ++ (':' :: B)))) ++ [')']))) =
        (str "eval at " ++ (fn2 ++ (' ' :: '(' ::
          (file ++ (':' :: (A ++ (':' :: B))))))) ++ [')'] := by simp
    have he1 : evalRe1 (str "eval at " ++ (fn1 ++ (' ' :: '(' ::
        ((str "eval at " ++ (fn2 ++ (' ' :: '(' ::
          ((file ++ (':' :: (A ++ (':' :: B)))) ++ [')'])))) ++ [')'])))) =
        none := by
      rw [hx]
      exact evalRe1_nested_none fn1 _ hfn1 hp1
    have he2 : evalRe2 (str "eval at " ++ (fn1 ++ (' ' :: '(' ::
        ((str "eval at " ++ (fn2 ++ (' ' :: '(' ::
          ((file ++ (':' :: (A ++ (':' :: B)))) ++ [')'])))) ++ [')'])))) =
        some (fn1, str "eval at " ++ (fn2 ++ (' ' :: '(' ::
          ((file ++ (':' :: (A ++ (':' :: B)))) ++ [')'])))) :=
      evalRe2_mk fn1 _ hfn1 hp1 hinner_ne hinner_all
    have he1i := evalRe1_mk fn2 file A B hfn2 hp2 hf hflt hA hAd hB hBd
    have hin : (mapEvalOrigin env (str "eval at " ++ (fn2 ++ (' ' :: '(' ::
        ((file ++ (':' :: (A ++ (':' :: B)))) ++ [')'])))) st).1 =
        str "eval at " ++ (fn2 ++ (' ' :: '(' ::
          ((pos.source ++ (':' :: (natToStr pos.line ++
            (':' :: intToStr (pos.column + 1))))) ++ [')']))) := by
      unfold mapEvalOrigin
      simp only [he1i, hmap]
      simp
    unfold mapEvalOrigin
    simp only [he1]
    split
    next fn inner heq =>
      rw [he2, Option.some.injEq, Prod.mk.injEq] at heq
      obtain ⟨hfneq, hineq⟩ := heq
      subst hfneq
      subst hineq
      rw [hin]
      simp
    next heq => rw [he2] at heq; cases heq

/-- Witness for C7 on the spec's doubly-nested example with no maps. -/
theorem c7_witness :
    (mapEvalOrigin envEmpty (str "eval at f (eval at g (file.js:10:5))")
        st0).1 = str "eval at f (eval at g (file.js:10:5))" := by
  have h := (c7_eval_origin_recursion envEmpty st0 (str "f") (str "g")
    (str "file.js") (str "10") (str "5")
    (mapSourcePosition envEmpty
      ⟨str "file.js", digitsToNat (str "10"),
        (digitsToNat (str "5") : Int) - 1⟩ st0).1
    (mapSourcePosition envEmpty
      ⟨str "file.js", digitsToNat (str "10"),
        (digitsToNat (str "5") : Int) - 1⟩ st0).2
    (by decide) (by decide) (by decide) (by decide) (by decide) (by decide)
    (by decide) (by decide) (by decide) (by decide) (by decide) rfl).2.2
  have harg : str "eval at f (eval at g (file.js:10:5))" =
      str "eval at " ++ ((str "f") ++ (' ' :: '(' ::
        ((str "eval at " ++ ((str "g") ++ (' ' :: '(' ::
          (((str "file.js") ++ (':' :: ((str "10") ++ (':' :: (str "5"))))) ++
            [')'])))) ++ [')']))) := by decide
  rw [harg, h]
  decide

/-! ## The two-pass structure of `remapStack` -/

theorem remapLoop1_unfold_internal (env : Env) (i : Nat) (frames : List Str)
    {ss : StackState} {st : St} {f : FrameInfo} {ss' : StackState} {st' : St}
    (hr : remapStackLine env (frames.getD (i + 1) []) ss st = (f, ss', st'))
    (hi : f.internal = true) :
    remapLoop1 env (i + 1) frames ss st = remapLoop1 env i frames ss' st' := by
  simp only [remapLoop1]
  rw [hr]
  simp [hi]

theorem remapLoop1_unfold_break (env : Env) (i : Nat) (frames : List Str)
    {ss : StackState} {st : St} {f : FrameInfo} {ss' : StackState} {st' : St}
    (hr : remapStackLine env (frames.getD (i + 1) []) ss st = (f, ss', st'))
    (hi : f.internal = false) :
    remapLoop1 env (i + 1) frames ss st =
      ((frames.take (i + 2)).set (i + 1) f.stackLine, i + 1,
        { ss' with nextPosition := ss'.curPosition }, st') := by
  simp only [remapLoop1]
  rw [hr]
  simp [hi]

theorem remapLoop2_unfold (env : Env) (i : Nat) (frames : List Str)
    {ss : StackState} {st : St} {f : FrameInfo} {ss' : StackState} {st' : St}
    (hr : remapStackLine env (frames.getD (i + 1) []) ss st = (f, ss', st')) :
    remapLoop2 env (i + 1) frames ss st =
      remapLoop2 env i (frames.set (i + 1) f.stackLine)
        { ss' with nextPosition := ss'.curPosition } st' := by
  simp only [remapLoop2]
  rw [hr]

/-- A decoder whose every query reports the same original position. -/
def constConsumer (src : String) (l : Nat) (c : Int) : Consumer :=
  ⟨fun _ => ⟨some (str src), l, c⟩, fun _ => none, []⟩

/-- An environment with two chained maps: `/g/a.js` maps into `b.js` and
`/g/b.js` maps further into `c.ts`, so remapping a remapped frame moves
it again. -/
def envChain : Env :=
  { envEmpty with
    consumerOf := fun m =>
      if m = str "MAPA" then constConsumer "b.js" 7 3
      else if m = str "MAPB" then constConsumer "c.ts" 9 4
      else nullConsumer
    extraMapHandlers := [fun src =>
      if src = str "/g/a.js" then some ⟨some (str "/g/a.js.map"), str "MAPA"⟩
      else if src = str "/g/b.js" then some ⟨some (str "/g/b.js.map"), str "MAPB"⟩
      else none] }

/-- Counterexample for claim C2: a stack whose frames classify (in
document order) `[user, internal, internal]` along the scan. The claim
says `remapStack` returns the header followed by the remapped user frame
`   at foo (/g/b.js:7:4)`; the code instead re-enters `remapStackLine`
on the boundary frame in the second pass (the `break` leaves `i`
unchanged), so with the chained maps of `envChain` the output frame is
the twice-remapped `   at foo (/g/c.ts:9:5)`. -/
theorem c2_counterexample_boundary_frame_remapped_twice :
    (remapStackLine envChain (str "   at baz (internal/j.js:1:1)") ss0
      st0).1.internal = true ∧
    (remapStackLine envChain (str "   at bar (internal/i.js:1:1)")
      (remapStackLine envChain (str "   at baz (internal/j.js:1:1)") ss0
        st0).2.1
      (remapStackLine envChain (str "   at baz (internal/j.js:1:1)") ss0
        st0).2.2).1.internal = true ∧
    (remapStackLine envChain (str "   at foo (/g/a.js:1:1)")
      (remapStackLine envChain (str "   at bar (internal/i.js:1:1)")
        (remapStackLine envChain (str "   at baz (internal/j.js:1:1)") ss0
          st0).2.1
        (remapStackLine envChain (str "   at baz (internal/j.js:1:1)") ss0
          st0).2.2).2.1
      (remapStackLine envChain (str "   at bar (internal/i.js:1:1)")
        (remapStackLine envChain (str "   at baz (internal/j.js:1:1)") ss0
          st0).2.1
        (remapStackLine envChain (str "   at baz (internal/j.js:1:1)") ss0
          st0).2.2).2.2).1 =
      (⟨str "   at foo (/g/b.js:7:4)", false⟩ : FrameInfo) ∧
    (remapStack envChain (some (str
      "Error: x\n   at foo (/g/a.js:1:1)\n   at bar (internal/i.js:1:1)\n   at baz (internal/j.js:1:1)"))
      st0).1 = some (str "Error: x\n   at foo (/g/c.ts:9:5)") ∧
    (remapStack envChain (some (str
      "Error: x\n   at foo (/g/a.js:1:1)\n   at bar (internal/i.js:1:1)\n   at baz (internal/j.js:1:1)"))
      st0).1 ≠ some (str "Error: x\n   at foo (/g/b.js:7:4)") := by
  refine ⟨by decide, by decide, by decide, by decide, by decide⟩

/-- Claim C2 (amended): for a stack `header, u, x, y` whose frames
classify `[user, internal, internal]` along the bottom-up scan, both
trailing internal frames are dropped, but the surviving user frame is the
result of applying `remapStackLine` to its own remapped text (the break
leaves `i` unchanged, so the second pass re-processes the boundary
frame); for `header, x, u, y` classifying `[internal, user, internal]`,
the trailing internal frame is dropped and the output is the remapped
internal frame followed by the twice-remapped user frame. When the
remapped frame's source has no further source map the re-processing is
the identity and the original claim's text is recovered. -/
theorem c2_amended_trailing_internal_trim (env : Env) (st : St)
    (hdr u x y : Str) (hh : '\n' ∉ hdr) (hu : '\n' ∉ u) (hx : '\n' ∉ x)
    (hy : '\n' ∉ y) :
    (∀ (fy : FrameInfo) (sy : StackState) (ty : St) (fx : FrameInfo)
        (sx : StackState) (tx : St) (fu : FrameInfo) (su : StackState)
        (tu : St) (fu2 : FrameInfo) (su2 : StackState) (tu2 : St),
      remapStackLine env y ss0 st = (fy, sy, ty) → fy.internal = true →
      remapStackLine env x sy ty = (fx, sx, tx) → fx.internal = true →
      remapStackLine env u sx tx = (fu, su, tu) → fu.internal = false →
      remapStackLine env fu.stackLine
        { su with nextPosition := su.curPosition } tu = (fu2, su2, tu2) →
      (remapStack env
          (some (hdr ++ ('\n' :: (u ++ ('\n' :: (x ++ ('\n' :: y)))))))
          st).1 =
        some (hdr ++ '\n' :: fu2.stackLine)) ∧
    (∀ (fy : FrameInfo) (sy : StackState) (ty : St) (fu : FrameInfo)
        (su : StackState) (tu : St) (fu2 : FrameInfo) (su2 : StackState)
        (tu2 : St) (fx2 : FrameInfo) (sx2 : StackState) (tx2 : St),
      remapStackLine env y ss0 st = (fy, sy, ty) → fy.internal = true →
      remapStackLine env u sy ty = (fu, su, tu) → fu.internal = false →
      remapStackLine env fu.stackLine
        { su with nextPosition := su.curPosition } tu = (fu2, su2, tu2) →
      remapStackLine env x
        { su2 with nextPosition := su2.curPosition } tu2 = (fx2, sx2, tx2) →
      (remapStack env
          (some (hdr ++ ('\n' :: (x ++ ('\n' :: (u ++ ('\n' :: y)))))))
          st).1 =
        some (hdr ++ '\n' :: (fx2.stackLine ++ '\n' :: fu2.stackLine))) := by
  constructor
  · intro fy sy ty fx sx tx fu su tu fu2 su2 tu2 eqY hiY eqX hiX eqU hiU eqU2
    have hsplit : splitNl (hdr ++ ('\n' :: (u ++ ('\n' :: (x ++
        ('\n' :: y)))))) = [hdr, u, x, y] := by
      rw [splitNl_append _ _ hh, splitNl_append _ _ hu, splitNl_append _ _ hx,
        splitNl_no_nl _ hy]
    have hL1 : remapLoop1 env 3 [hdr, u, x, y] ss0 st =
        ([hdr, fu.stackLine], 1,
          { su with nextPosition := su.curPosition }, tu) := by
      rw [remapLoop1_unfold_internal env 2 [hdr, u, x, y] eqY hiY,
        remapLoop1_unfold_internal env 1 [hdr, u, x, y] eqX hiX,
        remapLoop1_unfold_break env 0 [hdr, u, x, y] eqU hiU]
      rfl
    have hL2 : remapLoop2 env 1 [hdr, fu.stackLine]
        { su with nextPosition := su.curPosition } tu =
        ([hdr, fu2.stackLine],
          { su2 with nextPosition := su2.curPosition }, tu2) := by
      rw [remapLoop2_unfold env 0 [hdr, fu.stackLine] eqU2]
      rfl
    simp only [remapStack, hsplit]
    rw [show ([hdr, u, x, y] : List Str).length - 1 = 3 from rfl, hL1]
    dsimp only
    rw [hL2]
    rfl
  · intro fy sy ty fu su tu fu2 su2 tu2 fx2 sx2 tx2 eqY hiY eqU hiU eqU2 eqX2
    have hsplit : splitNl (hdr ++ ('\n' :: (x ++ ('\n' :: (u ++
        ('\n' :: y)))))) = [hdr, x, u, y] := by
      rw [splitNl_append _ _ hh, splitNl_append _ _ hx, splitNl_append _ _ hu,
        splitNl_no_nl _ hy]
    have hL1 : remapLoop1 env 3 [hdr, x, u, y] ss0 st =
        ([hdr, x, fu.stackLine], 2,
          { su with nextPosition := su.curPosition }, tu) := by
      rw [remapLoop1_unfold_internal env 2 [hdr, x, u, y] eqY hiY,
        remapLoop1_unfold_break env 1 [hdr, x, u, y] eqU hiU]
      rfl
    have hL2 : remapLoop2 env 2 [hdr, x, fu.stackLine]
        { su with nextPosition := su.curPosition } tu =
        ([hdr, fx2.stackLine, fu2.stackLine],
          { sx2 with nextPosition := sx2.curPosition }, tx2) := by
      rw [remapLoop2_unfold env 1 [hdr, x, fu.stackLine] eqU2,
        remapLoop2_unfold env 0 ([hdr, x, fu.stackLine].set 2 fu2.stackLine)
          eqX2]
      rfl
    simp only [remapStack, hsplit]
    rw [show ([hdr, x, u, y] : List Str).length - 1 = 3 from rfl, hL1]
    dsimp only
    rw [hL2]
    rfl

/-- Witness for the amended C2: with no maps at all the re-processing of
the boundary frame is the identity, and both claimed shapes come out as
the original claim describes. -/
theorem c2_witness :
    (remapStack envEmpty (some (str
      "E\n   at f (a.js:1:1)\n   at g (internal/i.js:1:1)\n   at k (internal/j.js:1:1)"))
      st0).1 = some (str "E\n   at f (a.js:1:1)") ∧
    (remapStack envEmpty (some (str
      "E\n   at g (internal/i.js:1:1)\n   at f (a.js:1:1)\n   at k (internal/j.js:1:1)"))
      st0).1 = some (str "E\n   at g (internal/i.js:1:1)\n   at f (a.js:1:1)") := by
  constructor
  · have h := (c2_amended_trailing_internal_trim envEmpty st0 (str "E")
      (str "   at f (a.js:1:1)") (str "   at g (internal/i.js:1:1)")
      (str "   at k (internal/j.js:1:1)") (by decide) (by decide) (by decide)
      (by decide)).1 _ _ _ _ _ _ _ _ _ _ _ _ rfl (by decide) rfl (by decide)
      rfl (by decide) rfl
    have harg : str
        "E\n   at f (a.js:1:1)\n   at g (internal/i.js:1:1)\n   at k (internal/j.js:1:1)" =
        str "E" ++ ('\n' :: (str "   at f (a.js:1:1)" ++
          ('\n' :: (str "   at g (internal/i.js:1:1)" ++
            ('\n' :: str "   at k (internal/j.js:1:1)"))))) := by decide
    rw [harg, h]
    decide
  · have h := (c2_amended_trailing_internal_trim envEmpty st0 (str "E")
      (str "   at f (a.js:1:1)") (str "   at g (internal/i.js:1:1)")
      (str "   at k (internal/j.js:1:1)") (by decide) (by decide) (by decide)
      (by decide)).2 _ _ _ _ _ _ _ _ _ _ _ _ rfl (by decide) rfl (by decide)
      rfl rfl
    have harg : str
        "E\n   at g (internal/i.js:1:1)\n   at f (a.js:1:1)\n   at k (internal/j.js:1:1)" =
        str "E" ++ ('\n' :: (str "   at g (internal/i.js:1:1)" ++
          ('\n' :: (str "   at f (a.js:1:1)" ++
            ('\n' :: str "   at k (internal/j.js:1:1)"))))) := by decide
    rw [harg, h]
    decide

/-! ## Claim C6: remapping with no maps available -/

/-- An environment in which no source map can ever be retrieved: an empty
filesystem and no pushed handlers. -/
def EnvNoSource (env : Env) : Prop :=
  (∀ p, env.fsExists p = false) ∧ env.extraMapHandlers = []

/-- A state whose file cache holds only empty strings and whose map cache
holds only negative entries — the only entries the module itself can
create under `EnvNoSource`. -/
def CacheClean (st : St) : Prop :=
  (∀ k v, lookupA st.fileContentsCache k = some v → v = []) ∧
  (∀ k e, lookupA st.sourceMapCache k = some e → e.map = none)

theorem retrieveFileHandlerDefault_noFs (env : Env) (p : Str) (st : St)
    (hfs : ∀ q, env.fsExists q = false) (hC : CacheClean st) :
    (retrieveFileHandlerDefault env p st).1 = [] ∧
    CacheClean (retrieveFileHandlerDefault env p st).2 := by
  rcases hl : lookupA st.fileContentsCache (normalizePath p) with _ | v
  · have heq : retrieveFileHandlerDefault env p st = ([],
        { st with
          fileContentsCache := setA st.fileContentsCache (normalizePath p) []
          fsAccesses := st.fsAccesses + 1 }) := by
      simp [retrieveFileHandlerDefault, hl, hfs]
    rw [heq]
    refine ⟨rfl, ?_, hC.2⟩
    intro k v hkv
    rw [lookupA_setA] at hkv
    by_cases hk : normalizePath p = k
    · rw [if_pos hk] at hkv
      exact (Option.some.injEq _ _ ▸ hkv).symm
    · rw [if_neg hk] at hkv
      exact hC.1 k v hkv
  · have hv : v = [] := hC.1 _ _ hl
    have heq : retrieveFileHandlerDefault env p st = (v, st) := by
      simp [retrieveFileHandlerDefault, hl]
    rw [heq, hv]
    exact ⟨rfl, hC⟩

theorem retrieveFile_noFs (env : Env) (p : Str) (st : St)
    (hfs : ∀ q, env.fsExists q = false) (hC : CacheClean st) :
    (retrieveFile env p st).1 = none ∧
    CacheClean (retrieveFile env p st).2 := by
  have h := retrieveFileHandlerDefault_noFs env p st hfs hC
  rcases hd : retrieveFileHandlerDefault env p st with ⟨r, st1⟩
  rw [hd] at h
  simp only at h
  obtain ⟨hr, hclean⟩ := h
  subst hr
  simp [retrieveFile, hd, hclean]

theorem retrieveSourceMapURL_noFs (env : Env) (source : Str) (st : St)
    (hfs : ∀ q, env.fsExists q = false) (hC : CacheClean st) :
    (retrieveSourceMapURL env source st).1 = none ∧
    CacheClean (retrieveSourceMapURL env source st).2 := by
  have h := retrieveFile_noFs env source st hfs hC
  rcases hd : retrieveFile env source st with ⟨r, st1⟩
  rw [hd] at h
  simp only at h
  obtain ⟨hr, hclean⟩ := h
  subst hr
  have hscan : scanMappingURLs (str "null").length (str "null") = [] := by
    decide
  simp [retrieveSourceMapURL, hd, hscan, hclean]

theorem retrieveSourceMapChain_noFs (env : Env) (source : Str) (st : St)
    (hE : EnvNoSource env) (hC : CacheClean st) :
    (retrieveSourceMapChain env source st).1 = none ∧
    CacheClean (retrieveSourceMapChain env source st).2 := by
  have hC1 : CacheClean { st with handlerCalls := st.handlerCalls + 1 } := hC
  have h := retrieveSourceMapURL_noFs env source
    { st with handlerCalls := st.handlerCalls + 1 } hE.1 hC1
  rcases hd : retrieveSourceMapURL env source
      { st with handlerCalls := st.handlerCalls + 1 } with ⟨u, st1⟩
  rw [hd] at h
  simp only at h
  obtain ⟨hu, hclean⟩ := h
  subst hu
  have hmap : retrieveMapHandlerDefault env source
      { st with handlerCalls := st.handlerCalls + 1 } = (none, st1) := by
    simp [retrieveMapHandlerDefault, hd]
  simp [retrieveSourceMapChain, hmap, hE.2, runExtraHandlers, hclean]

theorem mapSourcePosition_noMap (env : Env) (p : Position) (st : St)
    (hE : EnvNoSource env) (hC : CacheClean st) :
    (mapSourcePosition env p st).1 = p ∧
    CacheClean (mapSourcePosition env p st).2 := by
  rcases hl : lookupA st.sourceMapCache p.source with _ | sm
  · have h := retrieveSourceMapChain_noFs env p.source st hE hC
    rcases hd : retrieveSourceMapChain env p.source st with ⟨uam, st1⟩
    rw [hd] at h
    simp only at h
    obtain ⟨hu, hclean⟩ := h
    subst hu
    have heq : mapSourcePosition env p st =
        (p, { st1 with sourceMapCache := setA st1.sourceMapCache p.source ⟨none, none⟩ }) := by
      simp [mapSourcePosition, hl, hd]
    rw [heq]
    refine ⟨rfl, hclean.1, ?_⟩
    intro k e hke
    rw [lookupA_setA] at hke
    by_cases hk : p.source = k
    · rw [if_pos hk, Option.some.injEq] at hke
      rw [← hke]
    · rw [if_neg hk] at hke
      exact hclean.2 k e hke
  · have hsm : sm.map = none := hC.2 _ _ hl
    have heq : mapSourcePosition env p st = (p, st) := by
      simp [mapSourcePosition, hl, useMapEntry, hsm]
    rw [heq]
    exact ⟨rfl, hC⟩

/-- A line is a fixpoint candidate: it fails the frame grammar or is a
special case, or it reconstructs to exactly itself when its position is
left unmapped (the numerals are canonical) and names no `internal/`
source. -/
def lineFix (line : Str) : Bool :=
  match frameRe line with
  | none => true
  | some (fn, src) =>
    if src = str "native code" ∨ src = str "native code:0:0" then true
    else
      match srcRe src with
      | none => true
      | some (file, l, c) =>
        if fn = str "eval code" then true
        else
          decide (frameText fn ⟨file, l, (c : Int) - 1⟩ = line) &&
            !(str "internal/").isPrefixOf file

theorem remapStackLine_fix (env : Env) (line : Str) (ss : StackState)
    (st : St) (hE : EnvNoSource env) (hC : CacheClean st)
    (hfix : lineFix line = true) :
    (remapStackLine env line ss st).1 = ⟨line, false⟩ ∧
    CacheClean (remapStackLine env line ss st).2.2 := by
  rcases hf : frameRe line with _ | ⟨fn, src⟩
  · have heq : remapStackLine env line ss st = (⟨line, false⟩, ss, st) := by
      simp [remapStackLine, hf]
    rw [heq]
    exact ⟨rfl, hC⟩
  · by_cases hnat : src = str "native code" ∨ src = str "native code:0:0"
    · have heq : remapStackLine env line ss st =
          (⟨line, false⟩, { ss with curPosition := none }, st) := by
        simp [remapStackLine, hf, hnat]
      rw [heq]
      exact ⟨rfl, hC⟩
    · rcases hs : srcRe src with _ | ⟨file, l, c⟩
      · have heq : remapStackLine env line ss st = (⟨line, false⟩, ss, st) := by
          simp [remapStackLine, hf, hnat, hs]
        rw [heq]
        exact ⟨rfl, hC⟩
      · by_cases hev : fn = str "eval code"
        · have heq : remapStackLine env line ss st =
              (⟨line, false⟩, ss, st) := by
            simp [remapStackLine, hf, hnat, hs, hev]
          rw [heq]
          exact ⟨rfl, hC⟩
        · simp only [lineFix, hf, hs, if_neg hnat, if_neg hev,
            Bool.and_eq_true] at hfix
          obtain ⟨htext, hpref⟩ := hfix
          have htext' := of_decide_eq_true htext
          have hpref' : (str "internal/").isPrefixOf file = false := by
            revert hpref
            cases (str "internal/").isPrefixOf file <;> simp
          rcases hm : mapSourcePosition env ⟨file, l, (c : Int) - 1⟩ st
            with ⟨pos, st1⟩
          have h7 := mapSourcePosition_noMap env ⟨file, l, (c : Int) - 1⟩ st
            hE hC
          rw [hm] at h7
          simp only at h7
          obtain ⟨hpos, hclean1⟩ := h7
          subst hpos
          have heq : remapStackLine env line ss st =
              (⟨frameText fn ⟨file, l, (c : Int) - 1⟩,
                (str "internal/").isPrefixOf file⟩,
                { ss with curPosition := some ⟨file, l, (c : Int) - 1⟩ },
                st1) := by
            simp [remapStackLine, hf, hnat, hs, hev, hm]
          rw [heq]
          exact ⟨by simp [htext', hpref'], hclean1⟩

theorem remapLoop2_fix (env : Env) (frames : List Str)
    (hE : EnvNoSource env)
    (hfix : ∀ i, 1 ≤ i → lineFix (frames.getD i []) = true) :
    ∀ (v : Nat) (ss : StackState) (st : St), CacheClean st →
      (remapLoop2 env v frames ss st).1 = frames ∧
      CacheClean (remapLoop2 env v frames ss st).2.2 := by
  intro v
  induction v with
  | zero => exact fun ss st hC => ⟨rfl, hC⟩
  | succ n ih =>
    intro ss st hC
    rcases hr : remapStackLine env (frames.getD (n + 1) []) ss st
      with ⟨f, ss1, st1⟩
    have hfx := remapStackLine_fix env (frames.getD (n + 1) []) ss st hE hC
      (hfix (n + 1) (by omega))
    rw [hr] at hfx
    simp only at hfx
    obtain ⟨hfeq, hclean1⟩ := hfx
    subst hfeq
    rw [remapLoop2_unfold env n frames hr]
    have hset : frames.set (n + 1)
        (FrameInfo.mk (frames.getD (n + 1) []) false).stackLine = frames :=
      List.set_getD_self frames (n + 1) []
    rw [hset]
    exact ih _ _ hclean1

/-- Under `EnvNoSource`, on a clean state, a stack every line of which is
a `lineFix` fixpoint is returned unchanged, and the state stays clean. -/
theorem remapStack_noMap_id (env : Env) (s : Str) (hE : EnvNoSource env)
    (hfix : ∀ i, 1 ≤ i → lineFix ((splitNl s).getD i []) = true) :
    ∀ (st : St), CacheClean st →
      (remapStack env (some s) st).1 = some s ∧
      CacheClean (remapStack env (some s) st).2 := by
  intro st hC
  rcases hn : splitNl s with _ | ⟨hd, t⟩
  · exact absurd hn (splitNl_ne_nil s)
  · have hjoin : joinNl (hd :: t) = s := by
      have := joinNl_splitNl s
      rw [hn] at this
      exact this
    rcases t with _ | ⟨b, t2⟩
    · have heq : remapStack env (some s) st = (some (joinNl [hd]), st) := by
        simp only [remapStack, hn]
        rfl
      rw [heq]
      exact ⟨by rw [hjoin], hC⟩
    · have hfix' : ∀ i, 1 ≤ i →
          lineFix ((hd :: b :: t2).getD i []) = true := by
        intro i hi
        have := hfix i hi
        rwa [hn] at this
      have hbot := hfix' (t2.length + 1) (by omega)
      rcases hr : remapStackLine env ((hd :: b :: t2).getD (t2.length + 1) [])
          ss0 st with ⟨f, ss1, st1⟩
      have hfx := remapStackLine_fix env _ ss0 st hE hC hbot
      rw [hr] at hfx
      simp only at hfx
      obtain ⟨hfeq, hclean1⟩ := hfx
      subst hfeq
      have htake : (hd :: b :: t2).take (t2.length + 2) = hd :: b :: t2 := by
        have : (hd :: b :: t2).length = t2.length + 2 := by simp
        rw [← this, List.take_length]
      have hL1 : remapLoop1 env (t2.length + 1) (hd :: b :: t2) ss0 st =
          (hd :: b :: t2, t2.length + 1,
            { ss1 with nextPosition := ss1.curPosition }, st1) := by
        rw [remapLoop1_unfold_break env t2.length (hd :: b :: t2) hr rfl]
        rw [htake, List.set_getD_self]
      have h9 := remapLoop2_fix env (hd :: b :: t2) hE hfix'
        (t2.length + 1) { ss1 with nextPosition := ss1.curPosition } st1
        hclean1
      rcases hlp : remapLoop2 env (t2.length + 1) (hd :: b :: t2)
          { ss1 with nextPosition := ss1.curPosition } st1
          with ⟨fr2, ss2, st2⟩
      rw [hlp] at h9
      simp only at h9
      obtain ⟨hfr2, hclean2⟩ := h9
      subst hfr2
      have heq : remapStack env (some s) st = (some (joinNl (hd :: b :: t2)), st2) := by
        simp only [remapStack, hn]
        rw [show (hd :: b :: t2).length - 1 = t2.length + 1 from by simp, hL1]
        dsimp only
        rw [hlp]
      rw [heq]
      exact ⟨by rw [hjoin], hclean2⟩

/-- Counterexample for claim C6: with no retrievable maps at all,
remapping is not the identity — a parseable frame whose line numeral has
a leading zero is reprinted canonically, so the text changes. -/
theorem c6_counterexample_leading_zero :
    (retrieveSourceMapChain envEmpty (str "a.js") st0).1 = none ∧
    (remapStack envEmpty (some (str "E\n   at f (a.js:01:1)")) st0).1 =
      some (str "E\n   at f (a.js:1:1)") ∧
    (remapStack envEmpty (some (str "E\n   at f (a.js:01:1)")) st0).1 ≠
      some (str "E\n   at f (a.js:01:1)") := by
  refine ⟨by decide, by decide, by decide⟩

/-- Claim C6 (amended): for a stack none of whose sources has a
retrievable map (`EnvNoSource`, clean caches), and each of whose lines is
a `lineFix` fixpoint — it fails the frame grammar or reconstructs to
exactly itself (canonical numerals) and names no `internal/` source —
`remapStack` returns the text unchanged, and remapping that output again
yields the same text. The fixpoint and non-internal conditions are forced
by the counterexample: leading-zero numerals are canonicalised and
trailing `internal/` frames are dropped even when no map exists. -/
theorem c6_amended_no_map_idempotent (env : Env) (st : St) (s : Str)
    (hE : EnvNoSource env) (hC : CacheClean st)
    (hfix : ∀ i, 1 ≤ i → lineFix ((splitNl s).getD i []) = true) :
    (remapStack env (some s) st).1 = some s ∧
    (remapStack env (some s) (remapStack env (some s) st).2).1 = some s :=
  ⟨(remapStack_noMap_id env s hE hfix st hC).1,
    (remapStack_noMap_id env s hE hfix _
      (remapStack_noMap_id env s hE hfix st hC).2).1⟩

/-- Witness for the amended C6. -/
theorem c6_witness :
    (∀ i, 1 ≤ i →
      lineFix ((splitNl (str "E\n   at f (a.js:1:1)")).getD i []) = true) ∧
    (remapStack envEmpty (some (str "E\n   at f (a.js:1:1)")) st0).1 =
      some (str "E\n   at f (a.js:1:1)") := by
  have hfix : ∀ i, 1 ≤ i →
      lineFix ((splitNl (str "E\n   at f (a.js:1:1)")).getD i []) = true := by
    intro i hi
    rcases i with _ | _ | j
    · omega
    · decide
    · have : (splitNl (str "E\n   at f (a.js:1:1)")).getD (j + 2) [] = [] := by
        have hlen : (splitNl (str "E\n   at f (a.js:1:1)")).length = 2 := by
          decide
        apply List.getD_eq_default
        omega
      rw [this]
      decide
  have hE : EnvNoSource envEmpty := ⟨fun _ => rfl, rfl⟩
  have hC : CacheClean st0 := ⟨fun k v h => (nomatch h), fun k e h => nomatch h⟩
  exact ⟨hfix,
    (c6_amended_no_map_idempotent envEmpty st0 (str "E\n   at f (a.js:1:1)")
      hE hC hfix).1⟩
